import Mathlib

/-!
Verification of the brush-to-BSP pipeline of ericw-tools (qbsp).

The definitions below are a shallow embedding of the C++ sources:
  * `src/qbsp/brush.cc` — face validation (`CheckFace`), contents
    classification (`Brush_GetContents`), brush loading (`LoadBrush`),
    entity brush aggregation (`Brush_LoadEntity`), rotation-origin fixup
    (`FindTargetEntity` / `FixRotateOrigin`), `bspbrush_t::update_bounds`;
  * `src/qbsp/qbsp.cc` — brush bevel computation (`AddBrushBevels`).

Machine floating point is modelled by exact reals; the game-policy
strategy object, the plane table and the small geometry library
(`qvec.hh` / `aabb.hh` / `winding.hh`) are not part of the sources and are
modelled from the specification where they are needed (each such
definition carries a `Modelled from the spec:` doc comment).
-/

open scoped Classical

/-! ## Geometry primitives (modelling `qvec.hh`) -/

/-- A 3-vector of (exact) reals, modelling `qvec3d`. -/
structure Vec3 where
  x : ℝ
  y : ℝ
  z : ℝ

/-- The zero vector. -/
def vzero : Vec3 := ⟨0, 0, 0⟩

instance : Inhabited Vec3 := ⟨vzero⟩

/-- Component-wise subtraction, modelling `operator-` on `qvec3d`. -/
def vsub (a b : Vec3) : Vec3 := ⟨a.x - b.x, a.y - b.y, a.z - b.z⟩

/-- Component-wise negation. -/
def vneg (a : Vec3) : Vec3 := ⟨-a.x, -a.y, -a.z⟩

/-- Dot product, modelling `qv::dot`. -/
def vdot (a b : Vec3) : ℝ := a.x * b.x + a.y * b.y + a.z * b.z

/-- Cross product, modelling `qv::cross`. -/
def vcross (a b : Vec3) : Vec3 :=
  ⟨a.y * b.z - a.z * b.y, a.z * b.x - a.x * b.z, a.x * b.y - a.y * b.x⟩

/-- Euclidean length, modelling `qv::length`. -/
noncomputable def vlen (v : Vec3) : ℝ := Real.sqrt (vdot v v)

/-- Normalization, modelling `qv::normalize` (junk value on the zero
vector, where the C++ divides by zero). -/
noncomputable def vnormalize (v : Vec3) : Vec3 :=
  ⟨v.x / vlen v, v.y / vlen v, v.z / vlen v⟩

/-- Indexed component access, modelling `qvec3d::operator[]`
(out-of-range access is undefined in C++; modelled as `0`). -/
def Vec3.nth (v : Vec3) (i : Nat) : ℝ :=
  if i = 0 then v.x else if i = 1 then v.y else if i = 2 then v.z else 0

/-- A plane given by a normal and a signed distance from the origin,
modelling `qplane3d`. -/
structure QPlane where
  normal : Vec3
  dist : ℝ

instance : Inhabited QPlane := ⟨⟨vzero, 0⟩⟩

/-- Signed distance from a point to a plane, modelling
`qplane3d::distance_to`. -/
def QPlane.distance_to (p : QPlane) (v : Vec3) : ℝ := vdot p.normal v - p.dist

/-- Plane negation, modelling `operator-` on `qplane3d`. -/
def QPlane.neg (p : QPlane) : QPlane := ⟨vneg p.normal, -p.dist⟩

/-! ## Diagnostics emitted by the core (warnings; fatal errors are
modelled by an `Option.none` result) -/

/-- The non-fatal warnings the embedded code can emit. -/
inductive Warn where
  /-- `CheckFace`: "too few points (n)" — the winding is cleared. -/
  | tooFewPoints (n : Nat)
  /-- `CheckFace`: "Point … off plane by …" (point is not corrected). -/
  | offPlane
  /-- `CheckFace`: "Healing degenerate edge …". -/
  | degenerateEdge
  /-- `CheckFace`: "Found a non-convex face …" — the winding is cleared. -/
  | nonConvex
  /-- `Brush_GetContents`: "mixed face contents (… != …) at line l". -/
  | mixedContents (linenum : Nat)
  deriving DecidableEq, Repr

/-! ## Face Validator: `CheckFace` (brush.cc lines 78–147)

`CheckFace` mutates `face->w` in place and can abort the whole program
(`FError`) when a coordinate lies outside the world extent.  It is
modelled as a function from the input winding to
`Option (winding × warnings)`, where `none` is the fatal abort and the
returned winding is the final value of `face->w`. -/

/-- One degenerate-edge repair step (brush.cc lines 123–125): the shift
loop `for (j = i + 1; j < size; j++) w[j-1] = w[j]` starts by
overwriting `w[i]` with `w[i+1]`, and the `resize` shrinks the count by
one, so the surviving points are `w[0..i-1], w[i+1..]` — the repair
removes `point[i]`.  For the wrapping edge (`i + 1 = w.length`) the
shift loop is empty and the `resize` drops the last point, which is
again `point[i]`. -/
def healDegenerate (w : List Vec3) (i : Nat) : List Vec3 :=
  (w.take i ++ w.drop (i + 1)).take (w.length - 1)

theorem healDegenerate_length (w : List Vec3) (i : Nat) (hw : w ≠ []) :
    (healDegenerate w i).length = w.length - 1 := by
  unfold healDegenerate
  rw [List.length_take, List.length_append, List.length_take, List.length_drop]
  have h1 : 0 < w.length := List.length_pos.mpr hw
  omega

/-- Whether some coordinate of `v` lies outside the world extent
(brush.cc lines 101–105); this is the fatal case. -/
def coordOutOfRange (wext : ℝ) (v : Vec3) : Prop :=
  |v.x| > wext ∨ |v.y| > wext ∨ |v.z| > wext

/-- The off-plane test for `point[i]` (brush.cc lines 111–115): the
point's signed distance to the supporting plane exceeds `eps` in either
direction (warning only). -/
def offPlaneAt (plane : QPlane) (eps : ℝ) (w : List Vec3) (i : Nat) : Prop :=
  plane.distance_to (w.getD i default) < -eps ∨ plane.distance_to (w.getD i default) > eps

/-- The edge vector `p2 - p1` of edge `i` (brush.cc line 118), with the
wrapping successor index. -/
def edgeVecAt (w : List Vec3) (i : Nat) : Vec3 :=
  vsub (w.getD ((i + 1) % w.length) default) (w.getD i default)

/-- The cutting-plane normal of edge `i`:
`qv::normalize(qv::cross(facenormal, edgevec))` (brush.cc line 130). -/
noncomputable def edgeNormalAt (plane : QPlane) (w : List Vec3) (i : Nat) : Vec3 :=
  vnormalize (vcross plane.normal (edgeVecAt w i))

/-- The cutting-plane offset of edge `i`: `dot(p1, edgenormal) + eps`
(brush.cc lines 131–132). -/
noncomputable def edgeDistAt (plane : QPlane) (eps : ℝ) (w : List Vec3) (i : Nat) : ℝ :=
  vdot (w.getD i default) (edgeNormalAt plane w i) + eps

/-- The convexity violation test of edge `i` (brush.cc lines 135–145):
some other point lies strictly in front of the edge's cutting plane. -/
noncomputable def convexViolationAt (plane : QPlane) (eps : ℝ)
    (w : List Vec3) (i : Nat) : Prop :=
  ∃ j < w.length, j ≠ i ∧
    vdot (w.getD j default) (edgeNormalAt plane w i) > edgeDistAt plane eps w i

/-- The warnings after the off-plane check of `point[i]`. -/
noncomputable def wsAfterOffPlane (plane : QPlane) (eps : ℝ)
    (w : List Vec3) (i : Nat) (ws : List Warn) : List Warn :=
  if offPlaneAt plane eps w i then ws ++ [Warn.offPlane] else ws

/-- The loop body of `CheckFace` from edge index `i` on (brush.cc lines
97–146).  `plane` is `face->get_plane()`; `eps` is
`qbsp_options.epsilon.value()`; `wext` is
`qbsp_options.worldextent.value()`.  In iteration order: the fatal
world-extent check on `point[i]`, the off-plane warning, the
degenerate-edge heal (which restarts validation from the beginning on
the healed winding — the recursive `CheckFace(face, sourceface)` call
followed by `break`; the restart's own too-few-points check is inlined
here), and the convexity check, which clears the winding on violation. -/
noncomputable def checkFaceAux (plane : QPlane) (eps wext : ℝ)
    (w : List Vec3) (i : Nat) (ws : List Warn) : Option (List Vec3 × List Warn) :=
  if w.length ≤ i then some (w, ws)
  else if coordOutOfRange wext (w.getD i default) then none
  else if vlen (edgeVecAt w i) < eps then
    if (healDegenerate w i).length < 3 then
      some ([], wsAfterOffPlane plane eps w i ws ++
        [Warn.degenerateEdge, Warn.tooFewPoints (healDegenerate w i).length])
    else
      checkFaceAux plane eps wext (healDegenerate w i) 0
        (wsAfterOffPlane plane eps w i ws ++ [Warn.degenerateEdge])
  else if convexViolationAt plane eps w i then
    some ([], wsAfterOffPlane plane eps w i ws ++ [Warn.nonConvex])
  else
    checkFaceAux plane eps wext w (i + 1) (wsAfterOffPlane plane eps w i ws)
  termination_by (w.length, w.length - i)
  decreasing_by
  · rename_i hi _ _ _
    have hne : w ≠ [] := by
      intro h
      subst h
      simp at hi
    have := healDegenerate_length w i hne
    left
    omega
  · rename_i hi _ _ _
    right
    omega

/-- `CheckFace` (brush.cc lines 78–147): validate a winding against its
supporting plane.  Returns `none` on the fatal coordinate-out-of-range
abort, otherwise the final winding (possibly cleared to `[]`) together
with the warnings emitted, in order. -/
noncomputable def checkFace (plane : QPlane) (eps wext : ℝ)
    (w : List Vec3) : Option (List Vec3 × List Warn) :=
  if w.length < 3 then some ([], [Warn.tooFewPoints w.length])
  else checkFaceAux plane eps wext w 0 []

/-! ## Contents values and the game-policy strategy

The game policy object (`qbsp_options.target_game`, an instance of the
`gamedef_t` hierarchy) and the `contentflags_t` methods are not part of
the sources under verification; the core consumes them through the
interface listed in spec §6.  They are modelled as a structure of
functions over an abstract contents type `C`. -/

/-- Modelled from the spec: the game-policy strategy interface of §6
(`create_*_contents` factories, `face_get_contents`, predicate queries,
content-mixing equality `types_equal`, the validity predicate
`is_valid(contents, allow_empty)`), together with the `contentflags_t`
mutators used by the aggregator (`set_mirrored`, `set_clips_same_type`,
the `illusionary_visblocker` field write) and the per-game
`allow_contented_bmodels` flag.  `face_get_contents` takes the face's
texture name, its texinfo flags and its raw native contents. -/
structure GamePolicy (C : Type) where
  create_empty_contents : C
  create_solid_contents : C
  create_detail_illusionary_contents : C → C
  create_detail_fence_contents : C → C
  create_detail_solid_contents : C → C
  face_get_contents : String → Int → Int → C
  is_empty : C → Bool
  is_solid : C → Bool
  is_sky : C → Bool
  is_clip : C → Bool
  is_origin : C → Bool
  types_equal : C → C → Bool
  is_valid : C → Bool → Bool
  set_mirrored : C → Option Bool → C
  set_clips_same_type : C → Option Bool → C
  set_illusionary_visblocker : C → Bool → C
  allow_contented_bmodels : Bool

/-! ## Source map data model (`mapface_t`, `mapbrush_t`, `mapentity_t`) -/

/-- A source map face (`mapface_t`): the fields read by the embedded
code.  `flags_is_hint` models `mapface_t::flags.is_hint`. -/
structure MapFace where
  planenum : Nat
  texinfo : Nat
  texname : String
  contents : Int
  flags_is_hint : Bool
  linenum : Nat
  winding : List Vec3
  bevel : Bool

/-- A source map brush (`mapbrush_t`): its faces and its precomputed
bounds (see `aabbT` below). -/
structure MapBrush where
  faces : List MapFace
  boundsMins : Vec3
  boundsMaxs : Vec3

/-- Modelled from the spec: the entity key-value store (`epairs`,
`entdata.h`, not under src/) — "string/int/float/vector getters on an
ordered string-keyed map per entity" (§6), exposed as accessor
functions.  `get` returns the empty string for a missing key. -/
structure Epairs where
  get : String → String
  get_int : String → Int
  get_float : String → ℚ
  get_vector : String → Vec3
  has : String → Bool

/-- A source map entity (`mapentity_t`): its key-value pairs and its
brushes. -/
structure MapEntity where
  epairs : Epairs
  mapbrushes : List MapBrush

/-! ## Contents Classifier: `Brush_GetContents` (brush.cc lines 288–322) -/

/-- The loop of `Brush_GetContents` (brush.cc lines 294–316).
`mtexinfos` models the global texinfo table lookup
`map.mtexinfos.at(mapface.texinfo).flags` (indices are assumed in
range; `at` would throw otherwise).  State: whether the base contents
has been set, the base contents, and the warnings so far.  A mixed
contents warning stops the loop (`break`). -/
def bgcLoop {C : Type} (g : GamePolicy C) (mtexinfos : Nat → Int)
    (base_contents_set : Bool) (base_contents : C)
    (faces : List MapFace) (ws : List Warn) : C × Bool × List Warn :=
  match faces with
  | [] => (base_contents, base_contents_set, ws)
  | mapface :: rest =>
    let contents := g.face_get_contents mapface.texname (mtexinfos mapface.texinfo)
      mapface.contents
    if g.is_empty contents then
      bgcLoop g mtexinfos base_contents_set base_contents rest ws
    else
      -- use the first non-empty as the base contents value
      let bset := true
      let base := if base_contents_set then base_contents else contents
      if ¬ g.types_equal contents base then
        (base, bset, ws ++ [Warn.mixedContents mapface.linenum])
      else
        bgcLoop g mtexinfos bset base rest ws

/-- `Brush_GetContents` (brush.cc lines 288–322): derive the
authoritative contents of a brush from its faces.  Returns the contents
together with the warnings emitted.  The trailing
`Q_assert(base_contents.is_valid(game, false))` is modelled separately
by `brushGetContents_assertion`. -/
def Brush_GetContents {C : Type} (g : GamePolicy C) (mtexinfos : Nat → Int)
    (mapbrush : MapBrush) : C × List Warn :=
  let r := bgcLoop g mtexinfos false g.create_empty_contents mapbrush.faces []
  (r.1, r.2.2)

/-- The assertion checked after classification (brush.cc line 319):
`base_contents.is_valid(qbsp_options.target_game, false)`. -/
def brushGetContents_assertion {C : Type} (g : GamePolicy C)
    (mtexinfos : Nat → Int) (mapbrush : MapBrush) : Bool :=
  g.is_valid (Brush_GetContents g mtexinfos mapbrush).1 false

/-! ## Bounds (modelling `aabb3d` from `common/aabb.hh`) -/

/-- Modelled from the spec: an axis-aligned bounding box
(`aabb3d`, not under src/), as `none` (the empty default-constructed
box) or a `mins`/`maxs` pair. -/
def AabbT : Type := Option (Vec3 × Vec3)

/-- Component-wise minimum. -/
def vmin (a b : Vec3) : Vec3 := ⟨min a.x b.x, min a.y b.y, min a.z b.z⟩

/-- Component-wise maximum. -/
def vmax (a b : Vec3) : Vec3 := ⟨max a.x b.x, max a.y b.y, max a.z b.z⟩

/-- Modelled from the spec: `aabb3d::unionWith` / `operator+=` — the
union of two bounding boxes. -/
def aabbUnion (a b : AabbT) : AabbT :=
  match a, b with
  | none, b => b
  | a, none => a
  | some (amins, amaxs), some (bmins, bmaxs) => some (vmin amins bmins, vmax amaxs bmaxs)

/-- Modelled from the spec: `winding_t::bounds()` — the bounding box of
a winding's points (empty for an empty winding). -/
def windingBounds (w : List Vec3) : AabbT :=
  w.foldl (fun a p => aabbUnion a (some (p, p))) none

/-- The precomputed bounds of a source map brush (`mapbrush_t::bounds`)
as an `AabbT`. -/
def MapBrush.bounds (mb : MapBrush) : AabbT := some (mb.boundsMins, mb.boundsMaxs)

/-! ## Brush Loader: `LoadBrush` (brush.cc lines 331–372) -/

/-- A brush side (`side_t`): the fields written by `LoadBrush` and the
aggregator. -/
structure SideT where
  texinfo : Nat
  planenum : Nat
  bevel : Bool
  w : List Vec3
  lmshift : Nat

/-- A bsp brush (`bspbrush_t`): the fields written by the embedded
code.  `func_areaportal` models the owning-entity pointer as a tag. -/
structure BspBrush (C : Type) where
  contents : C
  sides : List SideT
  bounds : AabbT
  lmshift : Nat
  func_areaportal : Bool
  sphere_origin : Vec3
  sphere_radius : ℝ

/-- The per-face body of the `LoadBrush` loop (brush.cc lines 339–356):
skip bevel-flagged source faces, build the destination side (texinfo is
forced to `0` for `hullnum > 0`), copy the source winding, and run
`CheckFace` on it.  `getplane` models the global plane table lookup
`map.get_plane(planenum)` used by `side_t::get_plane`.  `none` is the
fatal `CheckFace` abort. -/
noncomputable def loadBrushSides (getplane : Nat → QPlane) (eps wext : ℝ)
    (hullnum : Int) (faces : List MapFace) : Option (List SideT) :=
  match faces with
  | [] => some []
  | src :: rest =>
    if src.bevel then loadBrushSides getplane eps wext hullnum rest
    else
      match checkFace (getplane src.planenum) eps wext src.winding with
      | none => none
      | some (w, _) =>
        match loadBrushSides getplane eps wext hullnum rest with
        | none => none
        | some sides =>
          some ({ texinfo := if hullnum > 0 then 0 else src.texinfo,
                  planenum := src.planenum,
                  bevel := src.bevel,
                  w := w,
                  lmshift := 0 } :: sides)

/-- `LoadBrush` (brush.cc lines 331–372): convert a map brush to a bsp
brush.  The outer `Option` is the fatal `CheckFace` abort; the inner
`Option` is the C++ `std::optional<bspbrush_t>` return value.  The
bounds are taken directly from the source brush's precomputed bounds
(`brush.bounds = mapbrush->bounds`, the explicit TODO at line 358), not
recomputed from the validated windings. -/
noncomputable def LoadBrush {C : Type} (getplane : Nat → QPlane) (eps wext : ℝ)
    (mapbrush : MapBrush) (contents : C) (hullnum : Int) :
    Option (Option (BspBrush C)) :=
  match loadBrushSides getplane eps wext hullnum mapbrush.faces with
  | none => none
  | some sides =>
    some (some { contents := contents,
                 sides := sides,
                 bounds := mapbrush.bounds,
                 lmshift := 0,
                 func_areaportal := false,
                 sphere_origin := vzero,
                 sphere_radius := 0 })

/-- `bspbrush_t::update_bounds` (brush.cc lines 599–608): recompute the
bounds as the union of the sides' winding bounds, and derive the
bounding sphere.  The `mins`/`maxs` reads on an empty bounds are
modelled as `vzero` (the C++ reads sentinel extrema there). -/
noncomputable def update_bounds {C : Type} (b : BspBrush C) : BspBrush C :=
  let bounds := b.sides.foldl (fun acc face => aabbUnion acc (windingBounds face.w)) none
  let mins := (bounds.getD (vzero, vzero)).1
  let maxs := (bounds.getD (vzero, vzero)).2
  { b with bounds := bounds,
           sphere_origin := ⟨(mins.x + maxs.x) / 2, (mins.y + maxs.y) / 2,
                             (mins.z + maxs.z) / 2⟩,
           sphere_radius := vlen ⟨(maxs.x - mins.x) / 2, (maxs.y - mins.y) / 2,
                                  (maxs.z - mins.z) / 2⟩ }

/-! ## Entity Brush Aggregator: the static `Brush_LoadEntity`
(brush.cc lines 376–555) -/

/-- Case-insensitive string equality, modelling `string_iequals` /
`!Q_strcasecmp` (compared character-wise after lower-casing). -/
def string_iequals (a b : String) : Bool :=
  a.data.map Char.toLower == b.data.map Char.toLower

/-- Modelled from the spec: the `HULL_COLLISION` pseudo-hull constant is
declared outside src/.  Its value is forced to be negative by the code:
it must differ from hull `0` (brush.cc line 484 treats them
differently) and must not be a positive hull (the `hullnum > 0` filters
at lines 475, 501, 524 would drop brushes, contradicting the comment at
line 561 that hull `HULL_COLLISION` "should contain ALL brushes"). -/
def HULL_COLLISION : Int := -1

/-- `MapBrush_IsHint` (brush.cc lines 200–208): whether any face of the
brush is hint-flagged. -/
def MapBrush_IsHint (mapbrush : MapBrush) : Bool :=
  mapbrush.faces.any (fun f => f.flags_is_hint)

/-- The compilation context: the `qbsp_options` fields read by the
embedded code, the game policy, and the global `map` table lookups
(`map.get_plane`, `map.mtexinfos[·].flags`). -/
structure QbspCtx (C : Type) where
  game : GamePolicy C
  epsilon : ℝ
  worldextent : ℝ
  nodetail : Bool
  omitdetail : Bool
  omitdetailillusionary : Bool
  omitdetailfence : Bool
  getplane : Nat → QPlane
  mtexinfos : Nat → Int

/-- Truncation toward zero of a rational, modelling the C++
float-to-int conversion in `i = 16 * src->epairs.get_float("_lmscale")`. -/
def qtrunc (q : ℚ) : Int := if 0 ≤ q then Int.floor q else Int.ceil q

/-- The `while (i > 1) { lmshift++; i /= 2; }` loop of brush.cc lines
412–416 (power-of-two light-map scale). -/
def lmshiftLoop : Nat → Nat
  | 0 => 0
  | 1 => 0
  | n + 2 => lmshiftLoop ((n + 2) / 2) + 1
  decreasing_by
    exact Nat.div_lt_self (by omega) (by omega)

/-- The `_lmscale` computation of brush.cc lines 408–416: `i` is the
truncated `16 * _lmscale`, defaulted to `16` when zero, then reduced to
a power-of-two shift. -/
def lmshiftOf (lmscale : ℚ) : Nat :=
  let i := qtrunc (16 * lmscale)
  let i := if i = 0 then 16 else i
  lmshiftLoop i.toNat

/-- The per-source-entity values computed before the brush loop of the
static `Brush_LoadEntity` (brush.cc lines 384–432).  When
`qbsp_options.nodetail` is set the C++ leaves `all_detail`,
`all_detail_fence` and `all_detail_illusionary` uninitialized (an
undefined-behavior slip); the model takes the defined path (`false`). -/
structure EntityCtx where
  classname : String
  all_detail : Bool
  all_detail_fence : Bool
  all_detail_illusionary : Bool
  lmshift : Nat
  mirrorinside : Option Bool
  clipsametype : Option Bool
  func_illusionary_visblocker : Bool

/-- Build the `EntityCtx` from a source entity (brush.cc lines 384–432). -/
def mkEntityCtx {C : Type} (ctx : QbspCtx C) (src : MapEntity) : EntityCtx :=
  let classname := src.epairs.get "classname"
  { classname := classname,
    all_detail := ¬ ctx.nodetail ∧ string_iequals classname "func_detail",
    all_detail_fence := ¬ ctx.nodetail ∧
      (string_iequals classname "func_detail_fence" ∨
       string_iequals classname "func_detail_wall"),
    all_detail_illusionary := ¬ ctx.nodetail ∧
      string_iequals classname "func_detail_illusionary",
    lmshift := lmshiftOf (src.epairs.get_float "_lmscale"),
    mirrorinside :=
      if src.epairs.has "_mirrorinside" then
        some (decide (src.epairs.get_int "_mirrorinside" ≠ 0))
      else none,
    clipsametype :=
      if src.epairs.has "_noclipfaces" then
        some (decide (src.epairs.get_int "_noclipfaces" = 0))
      else none,
    func_illusionary_visblocker :=
      string_iequals classname "func_illusionary_visblocker" }

/-- The effect of one iteration of the aggregator's brush loop on the
destination entity. -/
inductive BrushAction (C : Type) where
  /-- `continue` without touching the destination entity. -/
  | skip
  /-- Clip brushes in hull 0: only the bounds are added (brush.cc lines
  486–492). -/
  | addBounds (bounds : AabbT)
  /-- The brush is appended and its bounds unioned in (brush.cc lines
  550–551). -/
  | addBrush (b : BspBrush C)

/-- The extended-flag application of brush.cc lines 531–534:
`set_mirrored`, `set_clips_same_type` and the `illusionary_visblocker`
write, from the entity context. -/
def extFlags {C : Type} (g : GamePolicy C) (ectx : EntityCtx) (c : C) : C :=
  g.set_illusionary_visblocker
    (g.set_clips_same_type (g.set_mirrored c ectx.mirrorinside) ectx.clipsametype)
    ectx.func_illusionary_visblocker

/-- The body of the aggregator's per-brush loop (brush.cc lines
437–552), as a function from one source brush to the action taken on
the destination entity.  `none` models a fatal abort inside
`CheckFace`.  `dstIsWorld` models `dst == map.world_entity()`. -/
noncomputable def processMapBrush {C : Type} (ctx : QbspCtx C) (ectx : EntityCtx)
    (dstIsWorld : Bool) (hullnum : Int) (mapbrush : MapBrush) :
    Option (BrushAction C) :=
  let g := ctx.game
  let contents0 := (Brush_GetContents g ctx.mtexinfos mapbrush).1
  -- per-brush settings (always false here), then inherit the per-entity settings
  let detail := false ∨ ectx.all_detail
  let detail_illusionary := false ∨ ectx.all_detail_illusionary
  let detail_fence := false ∨ ectx.all_detail_fence
  -- "origin" brushes always discarded
  if g.is_origin contents0 then some .skip
  -- -omitdetail option omits all types of detail
  else if ctx.omitdetail ∧ detail then some .skip
  else if (ctx.omitdetail ∨ ctx.omitdetailillusionary) ∧ detail_illusionary then some .skip
  else if (ctx.omitdetail ∨ ctx.omitdetailfence) ∧ detail_fence then some .skip
  else
    -- turn solid brushes into detail, if we're in hull0
    let c1 :=
      if hullnum ≤ 0 ∧ g.is_solid contents0 then
        if detail_illusionary then g.create_detail_illusionary_contents contents0
        else if detail_fence then g.create_detail_fence_contents contents0
        else if detail then g.create_detail_solid_contents contents0
        else contents0
      else contents0
    -- func_detail_illusionary don't exist in the collision hull
    if hullnum > 0 ∧ detail_illusionary then some .skip
    else
      -- the stages after the clip special case, from contents c2 on
      let afterClip : C → Option (BrushAction C) := fun c2 =>
        let hint := MapBrush_IsHint mapbrush
        -- "hint" brushes don't affect the collision hulls
        if hint ∧ hullnum > 0 then some .skip
        else
          let c3 := if hint then g.create_empty_contents else c2
          -- entities in some games never use water merging
          let c4 :=
            if ¬ dstIsWorld ∧ ¬ g.allow_contented_bmodels then
              if hullnum ≤ 0 ∧ ectx.mirrorinside.getD false then
                g.create_detail_fence_contents g.create_solid_contents
              else g.create_solid_contents
            else c3
          -- nonsolid brushes don't show up in clipping hulls
          if hullnum > 0 ∧ ¬ g.is_solid c4 ∧ ¬ g.is_sky c4 then some .skip
          else
            -- sky brushes are solid in the collision hulls
            let c5 := if hullnum > 0 ∧ g.is_sky c4 then g.create_solid_contents else c4
            -- apply extended flags
            let c6 := extFlags g ectx c5
            match LoadBrush ctx.getplane ctx.epsilon ctx.worldextent mapbrush c6 hullnum with
            | none => none
            | some none => some .skip
            | some (some b) =>
              some (.addBrush { b with
                lmshift := ectx.lmshift,
                sides := b.sides.map (fun face => { face with lmshift := ectx.lmshift }),
                func_areaportal := ectx.classname == "func_areaportal" })
      -- "clip" brushes don't show up in the draw hull, but contribute bounds
      if hullnum ≠ HULL_COLLISION ∧ g.is_clip c1 then
        if hullnum = 0 then
          match LoadBrush ctx.getplane ctx.epsilon ctx.worldextent mapbrush c1 hullnum with
          | none => none
          | some none => some .skip
          | some (some b) => some (.addBounds b.bounds)
        else
          -- for hull1, 2, etc., convert clip to CONTENTS_SOLID
          afterClip g.create_solid_contents
      else afterClip c1

/-- The destination entity's accumulating state: its brush list and its
running bounding box. -/
structure DstEntity (C : Type) where
  brushes : List (BspBrush C)
  bounds : AabbT

/-- Apply one `BrushAction` to the destination entity. -/
def applyBrushAction {C : Type} (d : DstEntity C) : BrushAction C → DstEntity C
  | .skip => d
  | .addBounds bb => { d with bounds := aabbUnion d.bounds bb }
  | .addBrush b =>
    { d with brushes := d.brushes ++ [b], bounds := aabbUnion d.bounds b.bounds }

/-- The static `Brush_LoadEntity` (brush.cc lines 376–555): aggregate
the brushes of `src` into `dst` for the given hull.  `_omitbrushes`
discards the entity's brushes outright; otherwise each source brush is
processed in order.  `none` models a fatal abort. -/
noncomputable def Brush_LoadEntity {C : Type} (ctx : QbspCtx C)
    (dst : DstEntity C) (src : MapEntity) (dstIsWorld : Bool) (hullnum : Int) :
    Option (DstEntity C) :=
  if src.epairs.get_int "_omitbrushes" ≠ 0 then some dst
  else
    let ectx := mkEntityCtx ctx src
    src.mapbrushes.foldlM (fun d mb =>
      (processMapBrush ctx ectx dstIsWorld hullnum mb).map (applyBrushAction d)) dst

/-! ## Rotation-origin fixup: `FindTargetEntity` / `FixRotateOrigin`
(brush.cc lines 162–198) -/

/-- `FindTargetEntity` (brush.cc lines 162–171): scan `map.entities` in
order and return the first entity whose `"targetname"` does NOT
case-insensitively equal `target` (the test is
`if (!string_iequals(target, name)) return &entity;`), or `none` when
every entity's `"targetname"` equals `target`. -/
def FindTargetEntity (entities : List MapEntity) (target : String) :
    Option MapEntity :=
  entities.find? (fun entity =>
    ! string_iequals target (entity.epairs.get "targetname"))

/-- `FixRotateOrigin` (brush.cc lines 178–198): look up the rotation
target (only when the `"target"` key is non-empty), read its
`"origin"`, falling back to zero with a warning, then write the offset
back into the entity's `"origin"` key and return it.  The write-back
`epairs.set("origin", qv::to_string(offset))` is modelled at the vector
level (the string round-trip is elided): the result is the offset, the
updated epairs, and whether the no-target warning fired. -/
def FixRotateOrigin (entities : List MapEntity) (entity : MapEntity) :
    Vec3 × Epairs × Bool :=
  let search := entity.epairs.get "target"
  let target := if search.isEmpty then none else FindTargetEntity entities search
  let (offset, warned) :=
    match target with
    | some t => (t.epairs.get_vector "origin", false)
    | none => (vzero, true)
  (offset,
   { entity.epairs with
     get_vector := fun key => if key == "origin" then offset
                              else entity.epairs.get_vector key },
   warned)

/-! ## Brush Bevel computation: `AddBrushBevels` (qbsp.cc lines 119–246)

`AddBrushBevels` lives in the older data model of qbsp.cc: `brush_t`
owns `face_t` records carrying a `planenum`/`planeside` pair into the
global plane table `map.planes`, and planes are exported into the
output lump `map.bsp.dplanes`.  `FindPlane` and `ExportMapPlane` are
declared elsewhere (map.cc / writebsp.cc, not under src/) and are
modelled from the spec. -/

/-- A face of the older qbsp.cc data model (`face_t`): the fields read
by `AddBrushBevels`. -/
structure OldFace where
  planenum : Nat
  planeside : Bool
  texinfo : Nat
  w : List Vec3

/-- A brush of the older qbsp.cc data model (`brush_t`): faces and
bounds. -/
structure OldBrush where
  faces : List OldFace
  boundsMins : Vec3
  boundsMaxs : Vec3

/-- An entry of the global plane table together with its cached output
index (`outputplanenum`, `none` until exported). -/
structure PlaneRec where
  pl : QPlane
  outputplanenum : Option Nat

instance : Inhabited PlaneRec := ⟨⟨default, none⟩⟩

/-- The global plane state: the qbsp plane table `map.planes` and the
output lump `map.bsp.dplanes`. -/
structure MapState where
  planes : List PlaneRec
  dplanes : List QPlane

/-- `map.planes[n]` (indices are valid in the embedded call sites;
out-of-range reads return the default plane). -/
def getMapPlane (st : MapState) (n : Nat) : QPlane := (st.planes.getD n default).pl

/-- Modelled from the spec: `FindPlane` — `add_or_find_plane(plane) ->
index` of §6, "de-duplicating, sign-paired": return the index of an
existing exactly-equal entry, else append the plane and its negation as
an adjacent pair and return the former's index. -/
noncomputable def FindPlane (st : MapState) (p : QPlane) : Nat × MapState :=
  match st.planes.findIdx? (fun r => decide (r.pl = p)) with
  | some i => (i, st)
  | none =>
    (st.planes.length,
     { st with planes := st.planes ++ [⟨p, none⟩, ⟨p.neg, none⟩] })

/-- Modelled from the spec: `ExportMapPlane planenum` — emit the plane
into the output lump once (§6 output lump emission), caching the output
index in the table entry. -/
noncomputable def ExportMapPlane (st : MapState) (planenum : Nat) : Nat × MapState :=
  let r := st.planes.getD planenum default
  match r.outputplanenum with
  | some o => (o, st)
  | none =>
    (st.dplanes.length,
     { planes := st.planes.set planenum ⟨r.pl, some st.dplanes.length⟩,
       dplanes := st.dplanes ++ [r.pl] })

/-- One output entry of `AddBrushBevels`: the tuple
`(outputplanenum, const face_t *)`. -/
abbrev BevelEntry : Type := Nat × Option OldFace

/-- The output-lump plane an entry refers to:
`map.bsp.dplanes[std::get<0>(e)]`. -/
def valOf (st : MapState) (e : BevelEntry) : QPlane := st.dplanes.getD e.1 default

/-- `std::swap(planes[i], planes[order])` on a list. -/
def listSwap {α : Type} [Inhabited α] (l : List α) (i j : Nat) : List α :=
  (l.set i (l.getD j default)).set j (l.getD i default)

/-- The unit normal along `axis` with sign `dir`, modelling
`new_plane.normal[axis] = dir` on a zero-initialized plane. -/
def axialNormal (axis : Nat) (dir : Int) : Vec3 :=
  ⟨if axis = 0 then (dir : ℝ) else 0,
   if axis = 1 then (dir : ℝ) else 0,
   if axis = 2 then (dir : ℝ) else 0⟩

/-- The six axial (axis, dir) pairs in the order the C++ loops generate
them (axis outer, dir = −1 then +1); the loop's `order` counter is the
position in this list. -/
def axisDirs : List (Nat × Int) := [(0, -1), (0, 1), (1, -1), (1, 1), (2, -1), (2, 1)]

/-- One iteration of the axial-planes loop of `AddBrushBevels`
(qbsp.cc lines 139–166): find the first entry whose exported normal has
component `dir` along `axis`; if none, synthesize an axial plane at the
brush's bounds and append it; then swap the entry into its canonical
position `order`. -/
noncomputable def addAxialStep (b : OldBrush)
    (acc : List BevelEntry × MapState) (order : Nat) (axis : Nat) (dir : Int) :
    List BevelEntry × MapState :=
  let planes := acc.1
  let st := acc.2
  match planes.findIdx? (fun e =>
      decide ((valOf st e).normal.nth axis = (dir : ℝ))) with
  | some i =>
    (if i ≠ order then listSwap planes i order else planes, st)
  | none =>
    -- add a new side
    let new_plane : QPlane :=
      ⟨axialNormal axis dir,
       if dir = 1 then b.boundsMaxs.nth axis else -(b.boundsMins.nth axis)⟩
    let fp := FindPlane st new_plane
    let ex := ExportMapPlane fp.2 fp.1
    let planes1 := planes ++ [(ex.1, b.faces.head?)]
    let i := planes.length
    (if i ≠ order then listSwap planes1 i order else planes1, ex.2)

/-- Modelled from the spec: `qv::epsilonEqual` on two planes ("no
duplicate, compared by exact plane equality within tolerance", §4.5) —
all four components within a small tolerance. -/
def epsilonEqualPlane (a b : QPlane) : Prop :=
  |a.normal.x - b.normal.x| ≤ 1 / 100000 ∧ |a.normal.y - b.normal.y| ≤ 1 / 100000 ∧
  |a.normal.z - b.normal.z| ≤ 1 / 100000 ∧ |a.dist - b.dist| ≤ 1 / 100000

/-- Modelled from the spec: `qv::Snap` — snap the components of a
normalized vector to ±1/0 when within a small tolerance (used to
detect axis-aligned edges, §4.5). -/
noncomputable def snapComp (c : ℝ) : ℝ :=
  if |c - 1| ≤ 1 / 10000 then 1
  else if |c + 1| ≤ 1 / 10000 then -1
  else if |c| ≤ 1 / 10000 then 0
  else c

/-- `qv::Snap` component-wise. -/
noncomputable def snapVec (v : Vec3) : Vec3 := ⟨snapComp v.x, snapComp v.y, snapComp v.z⟩

/-- The acceptance test for a candidate edge bevel (qbsp.cc lines
207–234): the candidate is a proper edge bevel iff no brush face plane
already equals it and every point of every face winding lies at most
0.1 in front of it. -/
def bevelAccept (st : MapState) (b : OldBrush) (current : QPlane) : Prop :=
  ∀ f ∈ b.faces,
    ¬ epsilonEqualPlane current
        (if f.planeside then (getMapPlane st f.planenum).neg else getMapPlane st f.planenum) ∧
    (f.w = [] ∨ ∀ pt ∈ f.w, current.distance_to pt ≤ 0.1)

/-- Try the candidate slanted axial built from edge direction `vec`
through point `wj` for one (axis, dir) pair (qbsp.cc lines 196–240). -/
noncomputable def tryEdgeBevel (b : OldBrush) (wj vec : Vec3)
    (acc : List BevelEntry × MapState) (axis : Nat) (dir : Int) :
    List BevelEntry × MapState :=
  let planes := acc.1
  let st := acc.2
  let vec2 := axialNormal axis dir
  let n0 := vcross vec vec2
  if vlen n0 < 0.5 then acc
  else
    let normal := vnormalize n0
    let current : QPlane := ⟨normal, vdot wj normal⟩
    if bevelAccept st b current then
      let fp := FindPlane st current
      let ex := ExportMapPlane fp.2 fp.1
      (planes ++ [(ex.1, b.faces.head?)], ex.2)
    else acc

/-- The edge loop over one non-axial face's winding (qbsp.cc lines
183–242): skip short or axis-aligned edges, then try the six candidate
slanted axials from each remaining edge. -/
noncomputable def edgeBevelsForFace (b : OldBrush) (w : List Vec3)
    (acc : List BevelEntry × MapState) : List BevelEntry × MapState :=
  (List.range w.length).foldl (fun acc j =>
    let wj := w.getD j default
    let wk := w.getD ((j + 1) % w.length) default
    let vec0 := vsub wj wk
    if vlen vec0 < 0.5 then acc
    else
      let vec := snapVec (vnormalize vec0)
      if vec.x = -1 ∨ vec.x = 1 ∨ vec.y = -1 ∨ vec.y = 1 ∨ vec.z = -1 ∨ vec.z = 1 then
        acc -- axial edge
      else
        axisDirs.foldl (fun acc ad => tryEdgeBevel b wj vec acc ad.1 ad.2) acc) acc

/-- Process one snapshot entry of the edge-bevel loop (qbsp.cc lines
176–243). -/
noncomputable def edgeBevelEntry (b : OldBrush)
    (acc : List BevelEntry × MapState) (e : BevelEntry) :
    List BevelEntry × MapState :=
  match e.2 with
  | none => acc
  | some s => if s.w = [] then acc else edgeBevelsForFace b s.w acc

/-- One step of the already-present-planes loop (qbsp.cc lines
124–133): orient the face plane to front-facing (`planeside` goes
through `FindPlane` on the negated plane), export it, and append the
entry. -/
noncomputable def bevelFaceStep (acc : List BevelEntry × MapState) (f : OldFace) :
    List BevelEntry × MapState :=
  let fp := if f.planeside then FindPlane acc.2 ((getMapPlane acc.2 f.planenum).neg)
            else (f.planenum, acc.2)
  let ex := ExportMapPlane fp.2 fp.1
  (acc.1 ++ [(ex.1, some f)], ex.2)

/-- `AddBrushBevels` (qbsp.cc lines 119–246): export the brush's face
planes, complete the six canonical axial planes (placed first, in
canonical order), and—unless the brush is pure axial with exactly six
planes—add the supporting edge bevels.  Returns the output entries and
the final plane state.  The edge loop's upper bound `edges_to_test` is
the snapshot of the list after the axial pass; appended bevels are not
re-iterated, and entries below index 6 are skipped. -/
noncomputable def AddBrushBevels (st0 : MapState) (b : OldBrush) :
    List BevelEntry × MapState :=
  -- add already-present planes
  let init := b.faces.foldl bevelFaceStep ([], st0)
  -- add the axial planes
  let afterAxial := axisDirs.enum.foldl (fun acc oad =>
    addAxialStep b acc oad.1 oad.2.1 oad.2.2) init
  -- pure axial: no edge bevels are needed
  if afterAxial.1.length = 6 then afterAxial
  else
    (afterAxial.1.drop 6).foldl (edgeBevelEntry b) afterAxial

/-! ## A concrete game policy (used to instantiate the parametric
theorems on concrete inputs) -/

/-- Modelled from the spec: a concrete contents value (§3) — a native
category plus the extended bits. -/
structure ContentFlags where
  native : Int
  detail : Bool
  detail_fence : Bool
  detail_illusionary : Bool
  mirror_inside : Option Bool
  clips_same_type : Option Bool
  illusionary_visblocker : Bool
  deriving DecidableEq, Repr

/-- The Quake-style native contents values (§6: "a small fixed
negative/positive integer space …, e.g. clip → −8"). -/
def CONTENTS_EMPTY : Int := -1

/-- Native solid contents. -/
def CONTENTS_SOLID : Int := -2

/-- Native water contents. -/
def CONTENTS_WATER : Int := -3

/-- Native sky contents. -/
def CONTENTS_SKY : Int := -6

/-- Native origin-marker contents. -/
def CONTENTS_ORIGIN : Int := -7

/-- Native clip contents. -/
def CONTENTS_CLIP : Int := -8

/-- A contents value with the given native category and cleared
extended bits. -/
def mkContents (native : Int) : ContentFlags :=
  ⟨native, false, false, false, none, none, false⟩

/-- Modelled from the spec: a concrete Quake1-like game policy (§6, §9:
`{QuakePolicy, …}`), used to instantiate the parametric theorems.
`face_get_contents` derives contents from the texture name ("skip" has
no content semantics, "clip"/"origin"/"sky"/liquid "*water" map
to their categories, anything else is solid); `types_equal` compares
native categories; `is_valid c allow_empty` permits an empty contents
only when `allow_empty` is set. -/
def specPolicy : GamePolicy ContentFlags where
  create_empty_contents := mkContents CONTENTS_EMPTY
  create_solid_contents := mkContents CONTENTS_SOLID
  create_detail_illusionary_contents := fun c => { c with detail_illusionary := true }
  create_detail_fence_contents := fun c => { c with detail_fence := true }
  create_detail_solid_contents := fun c => { c with detail := true }
  face_get_contents := fun texname _flags _raw =>
    if texname == "skip" then mkContents CONTENTS_EMPTY
    else if texname == "clip" then mkContents CONTENTS_CLIP
    else if texname == "origin" then mkContents CONTENTS_ORIGIN
    else if texname == "sky" then mkContents CONTENTS_SKY
    else if texname == "*water" then mkContents CONTENTS_WATER
    else mkContents CONTENTS_SOLID
  is_empty := fun c => c.native == CONTENTS_EMPTY
  is_solid := fun c => c.native == CONTENTS_SOLID
  is_sky := fun c => c.native == CONTENTS_SKY
  is_clip := fun c => c.native == CONTENTS_CLIP
  is_origin := fun c => c.native == CONTENTS_ORIGIN
  types_equal := fun a b => a.native == b.native
  is_valid := fun c allow_empty => allow_empty || !(c.native == CONTENTS_EMPTY)
  set_mirrored := fun c o => { c with mirror_inside := o }
  set_clips_same_type := fun c o => { c with clips_same_type := o }
  set_illusionary_visblocker := fun c v => { c with illusionary_visblocker := v }
  allow_contented_bmodels := true

/-! ## Characterization of `Brush_GetContents` -/

/-- The contents the game policy derives for one source face
(brush.cc lines 295–298). -/
def derivedContents {C : Type} (g : GamePolicy C) (mtexinfos : Nat → Int)
    (f : MapFace) : C :=
  g.face_get_contents f.texname (mtexinfos f.texinfo) f.contents

/-- The faces whose derived contents is non-empty. -/
def nonEmptyFace {C : Type} (g : GamePolicy C) (mtexinfos : Nat → Int)
    (f : MapFace) : Bool :=
  ! g.is_empty (derivedContents g mtexinfos f)

/-- A non-empty face whose derived contents differs in type from the
base contents `b`. -/
def mismatchFace {C : Type} (g : GamePolicy C) (mtexinfos : Nat → Int) (b : C)
    (f : MapFace) : Bool :=
  (! g.is_empty (derivedContents g mtexinfos f)) &&
  (! g.types_equal (derivedContents g mtexinfos f) b)

lemma bgcLoop_cons {C : Type} (g : GamePolicy C) (mtexinfos : Nat → Int)
    (bset : Bool) (base : C) (f : MapFace) (rest : List MapFace) (ws : List Warn) :
    bgcLoop g mtexinfos bset base (f :: rest) ws =
      if g.is_empty (derivedContents g mtexinfos f) then
        bgcLoop g mtexinfos bset base rest ws
      else
        let base1 := if bset then base else derivedContents g mtexinfos f
        if ¬ g.types_equal (derivedContents g mtexinfos f) base1 then
          (base1, true, ws ++ [Warn.mixedContents f.linenum])
        else bgcLoop g mtexinfos true base1 rest ws := by
  simp only [bgcLoop, derivedContents]

lemma bgcLoop_baseSet {C : Type} (g : GamePolicy C) (mtexinfos : Nat → Int)
    (b : C) (faces : List MapFace) (ws : List Warn) :
    bgcLoop g mtexinfos true b faces ws =
      match faces.find? (mismatchFace g mtexinfos b) with
      | some mf => (b, true, ws ++ [Warn.mixedContents mf.linenum])
      | none => (b, true, ws) := by
  induction faces generalizing ws with
  | nil => simp [bgcLoop]
  | cons f rest ih =>
    rw [bgcLoop_cons]
    by_cases he : g.is_empty (derivedContents g mtexinfos f) = true
    · have hm : ¬ mismatchFace g mtexinfos b f = true := by
        simp [mismatchFace, he]
      rw [List.find?_cons_of_neg _ hm, if_pos he]
      exact ih ws
    · replace he : g.is_empty (derivedContents g mtexinfos f) = false :=
        Bool.eq_false_iff.mpr he
      by_cases ht : g.types_equal (derivedContents g mtexinfos f) b = true
      · have hm : ¬ mismatchFace g mtexinfos b f = true := by
          simp [mismatchFace, ht]
        rw [List.find?_cons_of_neg _ hm]
        simp only [he, Bool.false_eq_true, if_false, if_true, ht, not_true, if_neg,
          Bool.true_eq_false]
        simpa using ih ws
      · have hm : mismatchFace g mtexinfos b f = true := by
          simp [mismatchFace, he, Bool.eq_false_iff.mpr ht]
        rw [List.find?_cons_of_pos _ hm]
        simp [he, ht]

lemma bgcLoop_baseUnset_none {C : Type} (g : GamePolicy C)
    (mtexinfos : Nat → Int) (e : C) (faces : List MapFace) (ws : List Warn)
    (hnone : faces.find? (nonEmptyFace g mtexinfos) = none) :
    bgcLoop g mtexinfos false e faces ws = (e, false, ws) := by
  induction faces generalizing ws with
  | nil => simp [bgcLoop]
  | cons f rest ih =>
    rw [List.find?_cons] at hnone
    by_cases he : nonEmptyFace g mtexinfos f
    · simp [he] at hnone
    · have he2 : g.is_empty (derivedContents g mtexinfos f) = true := by
        have := Bool.eq_false_iff.mpr he
        simpa [nonEmptyFace] using this
      simp only [he, Bool.false_eq_true, if_false] at hnone
      rw [bgcLoop_cons, if_pos he2]
      exact ih ws hnone

lemma bgcLoop_baseUnset_some {C : Type} (g : GamePolicy C)
    (mtexinfos : Nat → Int) (e : C) (faces : List MapFace) (ws : List Warn)
    (ff : MapFace)
    (href : ∀ c, g.types_equal c c = true)
    (hsome : faces.find? (nonEmptyFace g mtexinfos) = some ff) :
    bgcLoop g mtexinfos false e faces ws =
      (derivedContents g mtexinfos ff, true,
       ws ++ (match faces.find?
                (mismatchFace g mtexinfos (derivedContents g mtexinfos ff)) with
              | some mf => [Warn.mixedContents mf.linenum]
              | none => [])) := by
  induction faces generalizing ws with
  | nil => simp at hsome
  | cons f rest ih =>
    rw [List.find?_cons] at hsome
    by_cases he : nonEmptyFace g mtexinfos f
    · simp only [he, if_pos] at hsome
      replace hsome : f = ff := by simpa using hsome
      subst hsome
      have he2 : g.is_empty (derivedContents g mtexinfos f) = false := by
        simpa [nonEmptyFace] using he
      have hm : ¬ mismatchFace g mtexinfos (derivedContents g mtexinfos f) f = true := by
        simp [mismatchFace, href]
      rw [List.find?_cons_of_neg _ hm, bgcLoop_cons, if_neg (by simp [he2])]
      simp only [Bool.false_eq_true, if_false, href, not_true, Bool.true_eq_false]
      rw [bgcLoop_baseSet g mtexinfos (derivedContents g mtexinfos f) rest ws]
      cases rest.find? (mismatchFace g mtexinfos (derivedContents g mtexinfos f)) <;> simp
    · have he2 : g.is_empty (derivedContents g mtexinfos f) = true := by
        have := Bool.eq_false_iff.mpr he
        simpa [nonEmptyFace] using this
      simp only [he, Bool.false_eq_true, if_false] at hsome
      have hm : ¬ mismatchFace g mtexinfos (derivedContents g mtexinfos ff) f = true := by
        simp [mismatchFace, he2]
      rw [List.find?_cons_of_neg _ hm, bgcLoop_cons, if_pos he2]
      exact ih ws hsome

/-! ## Claims C1 and C8 — the Contents Classifier -/

/-- A default texinfo table for concrete instances. -/
def mti0 : Nat → Int := fun _ => 0

/-- A minimal concrete source face with the given texture name and
source line. -/
def faceOf (tex : String) (ln : Nat) : MapFace :=
  { planenum := 0, texinfo := 0, texname := tex, contents := 0,
    flags_is_hint := false, linenum := ln, winding := [], bevel := false }

/-- A concrete brush with a skip face, a solid face and a water face. -/
def mbC1 : MapBrush := ⟨[faceOf "skip" 1, faceOf "rock" 2, faceOf "*water" 3], vzero, vzero⟩

/-- **C1**: for every brush with at least one face whose derived
contents is non-empty, `Brush_GetContents` returns the contents derived
from the first such face `ff` in face order; and the warnings are
exactly one mixed-contents warning — the one for the first later
non-empty face whose contents differs in type from that base — when
such a face exists, and nothing otherwise.  (The hypothesis `href` is
the game-policy sanity property that `types_equal` is reflexive, which
the C++ policies satisfy; without it even the base face would trip the
comparison at brush.cc line 310.) -/
theorem claim_C1 {C : Type} (g : GamePolicy C) (mtexinfos : Nat → Int)
    (mb : MapBrush) (ff : MapFace)
    (href : ∀ c, g.types_equal c c = true)
    (hsome : mb.faces.find? (nonEmptyFace g mtexinfos) = some ff) :
    (Brush_GetContents g mtexinfos mb).1 = derivedContents g mtexinfos ff ∧
    (Brush_GetContents g mtexinfos mb).2 =
      (match mb.faces.find?
          (mismatchFace g mtexinfos (derivedContents g mtexinfos ff)) with
       | some mf => [Warn.mixedContents mf.linenum]
       | none => []) := by
  have h := bgcLoop_baseUnset_some g mtexinfos g.create_empty_contents mb.faces []
    ff href hsome
  refine ⟨by simp [Brush_GetContents, h], by simp [Brush_GetContents, h]⟩

/-- Witness for C1: on `mbC1` the base is the solid "rock" face and
exactly the "*water" mismatch at line 3 is warned. -/
theorem claim_C1_witness :
    (Brush_GetContents specPolicy mti0 mbC1).1 =
      derivedContents specPolicy mti0 (faceOf "rock" 2) ∧
    (Brush_GetContents specPolicy mti0 mbC1).2 = [Warn.mixedContents 3] := by
  have h := claim_C1 specPolicy mti0 mbC1 (faceOf "rock" 2)
    (fun c => by simp [specPolicy]) (by rfl)
  refine ⟨h.1, ?_⟩
  rw [h.2]
  rfl

/-- **C8 (amended)**: for every brush with at least one face whose
derived contents is non-empty, the contents returned by
`Brush_GetContents` satisfies `is_valid(contents, false)` — the
assertion at brush.cc line 319 holds.  `hval` is the spec-modelled
validity predicate: a non-empty contents is valid in non-allow-empty
mode. -/
theorem claim_C8 {C : Type} (g : GamePolicy C) (mtexinfos : Nat → Int)
    (mb : MapBrush) (ff : MapFace)
    (href : ∀ c, g.types_equal c c = true)
    (hval : ∀ c, g.is_empty c = false → g.is_valid c false = true)
    (hsome : mb.faces.find? (nonEmptyFace g mtexinfos) = some ff) :
    brushGetContents_assertion g mtexinfos mb = true := by
  have h := bgcLoop_baseUnset_some g mtexinfos g.create_empty_contents mb.faces []
    ff href hsome
  have h1 : (Brush_GetContents g mtexinfos mb).1 = derivedContents g mtexinfos ff := by
    simp [Brush_GetContents, h]
  have hne : g.is_empty (derivedContents g mtexinfos ff) = false := by
    have h2 := List.find?_some hsome
    simpa [nonEmptyFace] using h2
  rw [brushGetContents_assertion, h1]
  exact hval _ hne

/-- Witness for C8 (amended): on `mbC1` the assertion holds. -/
theorem claim_C8_witness :
    brushGetContents_assertion specPolicy mti0 mbC1 = true :=
  claim_C8 specPolicy mti0 mbC1 (faceOf "rock" 2)
    (fun c => by simp [specPolicy])
    (fun c h => by
      simp only [specPolicy] at h ⊢
      simp only [Bool.false_or]
      simpa using h)
    (by rfl)

/-- A concrete brush every one of whose faces derives empty contents. -/
def mbC8 : MapBrush := ⟨[faceOf "skip" 1], vzero, vzero⟩

/-- Counterexample for C8 as stated: on a brush all of whose faces
derive empty contents, the returned contents is the empty contents and
`is_valid(contents, allow_empty = false)` is `false` — the assertion
fires. -/
theorem claim_C8_counterexample :
    brushGetContents_assertion specPolicy mti0 mbC8 = false := by rfl

/-! ## Claim C10 — rotation-target lookup -/

lemma findTarget_first (target : String) (pre post : List MapEntity) (t : MapEntity)
    (hpre : ∀ e ∈ pre, string_iequals target (e.epairs.get "targetname") = true)
    (ht : string_iequals target (t.epairs.get "targetname") = false) :
    FindTargetEntity (pre ++ t :: post) target = some t := by
  induction pre with
  | nil =>
    simp only [FindTargetEntity, List.nil_append]
    rw [List.find?_cons_of_pos]
    simp [ht]
  | cons e rest ih =>
    have he := hpre e (by simp)
    simp only [FindTargetEntity, List.cons_append] at ih ⊢
    rw [List.find?_cons_of_neg]
    · exact ih (fun e2 he2 => hpre e2 (List.mem_cons_of_mem _ he2))
    · simp [he]

lemma findTarget_none (target : String) (entities : List MapEntity)
    (hall : ∀ e ∈ entities, string_iequals target (e.epairs.get "targetname") = true) :
    FindTargetEntity entities target = none := by
  simp only [FindTargetEntity]
  rw [List.find?_eq_none]
  intro e he
  simp [hall e he]

/-- **C10**: when the entity's `"target"` key is non-empty, the offset
returned by `FixRotateOrigin` (and written back into its `"origin"`
key) is read from the `"origin"` of the first entity in map order whose
`"targetname"` does NOT case-insensitively equal the target; and the
lookup falls back to a zero offset with a warning exactly when every
entity's `"targetname"` equals the target. -/
theorem claim_C10 (entities pre post : List MapEntity) (entity t : MapEntity)
    (htar : entity.epairs.get "target" ≠ "") :
    ((entities = pre ++ t :: post ∧
      (∀ e ∈ pre, string_iequals (entity.epairs.get "target")
          (e.epairs.get "targetname") = true) ∧
      string_iequals (entity.epairs.get "target") (t.epairs.get "targetname") = false) →
      (FixRotateOrigin entities entity).1 = t.epairs.get_vector "origin" ∧
      (FixRotateOrigin entities entity).2.1.get_vector "origin" =
        t.epairs.get_vector "origin" ∧
      (FixRotateOrigin entities entity).2.2 = false) ∧
    ((∀ e ∈ entities, string_iequals (entity.epairs.get "target")
        (e.epairs.get "targetname") = true) →
      (FixRotateOrigin entities entity).1 = vzero ∧
      (FixRotateOrigin entities entity).2.2 = true) := by
  have hne : (entity.epairs.get "target").isEmpty = false := by
    refine Bool.eq_false_iff.mpr (fun h => htar ?_)
    exact (String.isEmpty_iff _).mp h
  constructor
  · rintro ⟨hents, hpre, ht⟩
    subst hents
    have hfind := findTarget_first (entity.epairs.get "target") pre post t hpre ht
    simp [FixRotateOrigin, hne, hfind]
  · intro hall
    have hfind := findTarget_none (entity.epairs.get "target") entities hall
    simp [FixRotateOrigin, hne, hfind]

/-- An epairs store with no keys set. -/
def epairs0 : Epairs :=
  { get := fun _ => "", get_int := fun _ => 0, get_float := fun _ => 0,
    get_vector := fun _ => vzero, has := fun _ => false }

/-- A rotation entity targeting "foo". -/
def entRotate : MapEntity :=
  { epairs := { epairs0 with get := fun k => if k == "target" then "foo" else "" },
    mapbrushes := [] }

/-- An entity actually named "FOO" (case-insensitively the target). -/
def entNamedFoo : MapEntity :=
  { epairs := { epairs0 with get := fun k => if k == "targetname" then "FOO" else "" },
    mapbrushes := [] }

/-- An entity named "bar" with a non-zero origin. -/
def entOther : MapEntity :=
  { epairs := { epairs0 with
      get := fun k => if k == "targetname" then "bar" else "",
      get_vector := fun k => if k == "origin" then ⟨1, 2, 3⟩ else vzero },
    mapbrushes := [] }

/-- Witness for C10: with entities `[entNamedFoo, entOther]` the offset
is read from `entOther` — the first entity whose targetname ("bar")
does not match — even though `entNamedFoo` is the entity actually named
"FOO". -/
theorem claim_C10_witness :
    (FixRotateOrigin [entNamedFoo, entOther] entRotate).1 =
      entOther.epairs.get_vector "origin" ∧
    (FixRotateOrigin [entNamedFoo, entOther] entRotate).2.1.get_vector "origin" =
      entOther.epairs.get_vector "origin" ∧
    (FixRotateOrigin [entNamedFoo, entOther] entRotate).2.2 = false := by
  have h := claim_C10 [entNamedFoo, entOther] [entNamedFoo] [] entRotate entOther
    (by simp [entRotate, epairs0])
  refine h.1 ⟨rfl, ?_, by rfl⟩
  intro e he
  rw [List.mem_singleton] at he
  subst he
  rfl

/-! ## Claim C2 — all-faces-filtered brushes -/

lemma loadBrushSides_all_bevel (getplane : Nat → QPlane) (eps wext : ℝ)
    (hullnum : Int) (faces : List MapFace)
    (hall : ∀ f ∈ faces, f.bevel = true) :
    loadBrushSides getplane eps wext hullnum faces = some [] := by
  induction faces with
  | nil => rfl
  | cons f rest ih =>
    have hf := hall f (by simp)
    rw [loadBrushSides, if_pos hf]
    exact ih (fun f2 hf2 => hall f2 (List.mem_cons_of_mem _ hf2))

/-- A concrete brush whose only face is a synthetic bevel. -/
def mbC2 : MapBrush := ⟨[{ faceOf "rock" 1 with bevel := true }], vzero, vzero⟩

/-- A context over the concrete policy with default options. -/
noncomputable def ctx0 : QbspCtx ContentFlags :=
  { game := specPolicy, epsilon := 1/1000, worldextent := 1000,
    nodetail := false, omitdetail := false, omitdetailillusionary := false,
    omitdetailfence := false, getplane := fun _ => default, mtexinfos := mti0 }

/-- Counterexample for C2 as stated: on a brush every one of whose
faces is a synthetic bevel, `LoadBrush` does NOT return a disengaged
optional — it returns an engaged brush with an empty side list. -/
theorem claim_C2_counterexample :
    LoadBrush (fun _ => default) ((1:ℝ)/1000) 1000 mbC2 (mkContents CONTENTS_SOLID) 0 =
      some (some { contents := mkContents CONTENTS_SOLID, sides := [],
                   bounds := mbC2.bounds, lmshift := 0, func_areaportal := false,
                   sphere_origin := vzero, sphere_radius := 0 }) := by
  have h := loadBrushSides_all_bevel (fun _ => default) ((1:ℝ)/1000) 1000 0
    mbC2.faces (by intro f hf; simp [mbC2] at hf; subst hf; rfl)
  simp only [LoadBrush]
  rw [h]

/-- **C2 (amended)**: `LoadBrush` never fails to produce a brush: it
always returns an engaged optional, and when every source face is
filtered out (all bevel-flagged) the produced brush simply has an empty
side list — which the aggregator then appends like any other brush
(`claim_C2_witness` evaluates the aggregator on such a brush and shows
one brush is appended). -/
theorem claim_C2 {C : Type} (getplane : Nat → QPlane) (eps wext : ℝ)
    (mapbrush : MapBrush) (contents : C) (hullnum : Int) :
    (∀ r, LoadBrush getplane eps wext mapbrush contents hullnum = some r →
      r.isSome = true) ∧
    ((∀ f ∈ mapbrush.faces, f.bevel = true) →
      LoadBrush getplane eps wext mapbrush contents hullnum =
        some (some { contents := contents, sides := [], bounds := mapbrush.bounds,
                     lmshift := 0, func_areaportal := false,
                     sphere_origin := vzero, sphere_radius := 0 })) := by
  constructor
  · intro r hr
    cases h : loadBrushSides getplane eps wext hullnum mapbrush.faces with
    | none => rw [LoadBrush, h] at hr; exact absurd hr (by simp)
    | some sides =>
      rw [LoadBrush, h] at hr
      simp only [Option.some.injEq] at hr
      subst hr
      rfl
  · intro hall
    have h := loadBrushSides_all_bevel getplane eps wext hullnum mapbrush.faces hall
    simp [LoadBrush, h]

/-- Witness for C2 (amended): on the all-bevel brush `mbC2` the loader
returns an engaged zero-side brush, and the aggregator appends it to
the destination entity (one brush in the output list, not zero). -/
theorem claim_C2_witness :
    ((LoadBrush (fun _ => default) ((1:ℝ)/1000) 1000 mbC2
        (mkContents CONTENTS_SOLID) 0).map Option.isSome = some true) ∧
    (∃ d, Brush_LoadEntity ctx0 ⟨[], none⟩ ⟨epairs0, [mbC2]⟩ true 0 = some d ∧
      d.brushes.length = 1 ∧ (∀ b ∈ d.brushes, b.sides = [])) := by
  have h2 := claim_C2 (fun _ => default) ((1:ℝ)/1000) 1000 mbC2
    (mkContents CONTENTS_SOLID) (0 : Int)
  have hload := h2.2 (by intro f hf; simp [mbC2] at hf; subst hf; rfl)
  constructor
  · rw [hload]
    rfl
  · have hall : ∀ f ∈ mbC2.faces, f.bevel = true := by
      intro f hf; simp [mbC2] at hf; subst hf; rfl
    have hsides := loadBrushSides_all_bevel ctx0.getplane ctx0.epsilon
      ctx0.worldextent 0 mbC2.faces hall
    refine ⟨⟨[{ contents := mkContents CONTENTS_SOLID, sides := [],
                bounds := some (vzero, vzero), lmshift := 4,
                func_areaportal := false, sphere_origin := vzero,
                sphere_radius := 0 }], some (vzero, vzero)⟩, ?_, rfl, ?_⟩
    · have hsides2 : loadBrushSides (fun _ => default) ((1:ℝ)/1000) 1000 0 mbC2.faces
          = some [] := hsides
      rw [Brush_LoadEntity, if_neg (by simp [epairs0])]
      simp only [List.foldlM, processMapBrush, LoadBrush, ctx0]
      rw [hsides2]
      simp [mkEntityCtx, epairs0, specPolicy, mti0, mbC2, faceOf, mkContents,
        CONTENTS_EMPTY, CONTENTS_SOLID, CONTENTS_ORIGIN, CONTENTS_CLIP, CONTENTS_SKY,
        Brush_GetContents, bgcLoop, derivedContents, MapBrush_IsHint, HULL_COLLISION,
        string_iequals, lmshiftOf, qtrunc, lmshiftLoop, applyBrushAction, aabbUnion,
        MapBrush.bounds, extFlags]
    · intro b hb
      simp at hb
      subst hb
      rfl

/-! ## Stepping lemmas for `checkFaceAux` -/

lemma checkFaceAux_exit (plane : QPlane) (eps wext : ℝ) (w : List Vec3)
    (i : Nat) (ws : List Warn) (hi : w.length ≤ i) :
    checkFaceAux plane eps wext w i ws = some (w, ws) := by
  rw [checkFaceAux, if_pos hi]

lemma checkFaceAux_fatal (plane : QPlane) (eps wext : ℝ) (w : List Vec3)
    (i : Nat) (ws : List Warn) (hi : ¬ w.length ≤ i)
    (hco : coordOutOfRange wext (w.getD i default)) :
    checkFaceAux plane eps wext w i ws = none := by
  rw [checkFaceAux, if_neg hi, if_pos hco]

lemma checkFaceAux_heal_short (plane : QPlane) (eps wext : ℝ) (w : List Vec3)
    (i : Nat) (ws : List Warn) (hi : ¬ w.length ≤ i)
    (hco : ¬ coordOutOfRange wext (w.getD i default))
    (hdeg : vlen (edgeVecAt w i) < eps)
    (hshort : (healDegenerate w i).length < 3) :
    checkFaceAux plane eps wext w i ws =
      some ([], wsAfterOffPlane plane eps w i ws ++
        [Warn.degenerateEdge, Warn.tooFewPoints (healDegenerate w i).length]) := by
  rw [checkFaceAux, if_neg hi, if_neg hco, if_pos hdeg, if_pos hshort]

lemma checkFaceAux_heal_cont (plane : QPlane) (eps wext : ℝ) (w : List Vec3)
    (i : Nat) (ws : List Warn) (hi : ¬ w.length ≤ i)
    (hco : ¬ coordOutOfRange wext (w.getD i default))
    (hdeg : vlen (edgeVecAt w i) < eps)
    (hlong : ¬ (healDegenerate w i).length < 3) :
    checkFaceAux plane eps wext w i ws =
      checkFaceAux plane eps wext (healDegenerate w i) 0
        (wsAfterOffPlane plane eps w i ws ++ [Warn.degenerateEdge]) := by
  rw [checkFaceAux, if_neg hi, if_neg hco, if_pos hdeg, if_neg hlong]

lemma checkFaceAux_convex_clear (plane : QPlane) (eps wext : ℝ) (w : List Vec3)
    (i : Nat) (ws : List Warn) (hi : ¬ w.length ≤ i)
    (hco : ¬ coordOutOfRange wext (w.getD i default))
    (hdeg : ¬ vlen (edgeVecAt w i) < eps)
    (hviol : convexViolationAt plane eps w i) :
    checkFaceAux plane eps wext w i ws =
      some ([], wsAfterOffPlane plane eps w i ws ++ [Warn.nonConvex]) := by
  rw [checkFaceAux, if_neg hi, if_neg hco, if_neg hdeg, if_pos hviol]

lemma checkFaceAux_next (plane : QPlane) (eps wext : ℝ) (w : List Vec3)
    (i : Nat) (ws : List Warn) (hi : ¬ w.length ≤ i)
    (hco : ¬ coordOutOfRange wext (w.getD i default))
    (hdeg : ¬ vlen (edgeVecAt w i) < eps)
    (hok : ¬ convexViolationAt plane eps w i) :
    checkFaceAux plane eps wext w i ws =
      checkFaceAux plane eps wext w (i + 1) (wsAfterOffPlane plane eps w i ws) := by
  rw [checkFaceAux, if_neg hi, if_neg hco, if_neg hdeg, if_neg hok]

/-! ## Claim C4 — termination of the Face Validator -/

/-- The z = 0 supporting plane. -/
def plZ : QPlane := ⟨⟨0, 0, 1⟩, 0⟩

/-- A degenerate triangle: its first edge has length 0 (two identical
points), so the first healing pass reduces it to 2 points. -/
def wC4 : List Vec3 := [vzero, vzero, ⟨1, 0, 0⟩]

/-- **C4** (amended): the Face Validator terminates on every finite
input (the recursion is total — `checkFace` is a well-defined
function): (a) a winding with fewer than 3 points is cleared with a
"too few points" warning; (b) each degenerate-edge repair removes
exactly one point; (c) the removed point is `point[i]` — the shift
loop at brush.cc:123–124 starts at `j = i + 1` with `w[j-1] = w[j]`,
overwriting `w[i]` — not `point[i+1]` as claimed; and (d) the
collapsing-triangle scenario `wC4` is cleared to empty with a "too few
points" warning rather than looping. -/
theorem claim_C4 :
    (∀ (plane : QPlane) (eps wext : ℝ) (w : List Vec3), w.length < 3 →
      checkFace plane eps wext w = some ([], [Warn.tooFewPoints w.length])) ∧
    (∀ (w : List Vec3) (i : Nat), w ≠ [] →
      (healDegenerate w i).length = w.length - 1) ∧
    (∀ (w : List Vec3) (i : Nat), i < w.length →
      healDegenerate w i = w.eraseIdx i) ∧
    checkFace plZ ((1:ℝ)/1000) 1000 wC4 =
      some ([], [Warn.degenerateEdge, Warn.tooFewPoints 2]) := by
  refine ⟨?_, ?_, ?_, ?_⟩
  · intro plane eps wext w hw
    rw [checkFace, if_pos hw]
  · intro w i hw
    exact healDegenerate_length w i hw
  · intro w i hlt
    rw [healDegenerate, List.eraseIdx_eq_take_drop_succ]
    have hlen : (w.take i ++ w.drop (i + 1)).length = w.length - 1 := by
      rw [List.length_append, List.length_take, List.length_drop]
      omega
    rw [List.take_of_length_le (le_of_eq hlen)]
  · rw [checkFace, if_neg (by simp [wC4])]
    rw [checkFaceAux_heal_short]
    · have hlen2 : (healDegenerate wC4 0).length = 2 := by
        simp [healDegenerate, wC4]
      rw [hlen2]
      have hoff : ¬ offPlaneAt plZ ((1:ℝ)/1000) wC4 0 := by
        simp only [offPlaneAt, wC4, plZ, QPlane.distance_to, vdot, vzero, List.getD]
        norm_num
      rw [wsAfterOffPlane, if_neg hoff]
      simp
    · simp [wC4]
    · simp only [coordOutOfRange, wC4, vzero, List.getD]
      norm_num
    · have : edgeVecAt wC4 0 = vzero := by
        simp [edgeVecAt, wC4, vsub, vzero]
      rw [this]
      have : vlen vzero = 0 := by
        simp [vlen, vdot, vzero]
      rw [this]
      norm_num
    · simp [healDegenerate, wC4]

/-- Witness for C4: the clauses applied at concrete inputs — a
1-point winding is cleared; the heal step on `wC4` removes exactly one
point, namely `point[0]`. -/
theorem claim_C4_witness :
    checkFace plZ ((1:ℝ)/1000) 1000 [vzero] = some ([], [Warn.tooFewPoints 1]) ∧
    (healDegenerate wC4 0).length = wC4.length - 1 ∧
    healDegenerate wC4 0 = wC4.eraseIdx 0 := by
  refine ⟨?_, ?_, ?_⟩
  · exact claim_C4.1 plZ ((1:ℝ)/1000) 1000 [vzero] (by simp)
  · exact claim_C4.2.1 wC4 0 (by simp [wC4])
  · exact claim_C4.2.2.1 wC4 0 (by simp [wC4])

/-! ## Claim C3 — convexity of accepted windings -/

lemma checkFaceAux_post (plane : QPlane) (eps wext : ℝ) :
    ∀ (w : List Vec3) (i : Nat) (ws : List Warn) (w' : List Vec3) (ws' : List Warn),
    checkFaceAux plane eps wext w i ws = some (w', ws') → w' ≠ [] →
    (∀ k, k < i → ¬ convexViolationAt plane eps w k) →
    ∀ k, k < w'.length → ¬ convexViolationAt plane eps w' k := by
  intro w i ws
  induction w, i, ws using checkFaceAux.induct plane eps wext with
  | case1 w i ws hi =>
    intro w' ws' heq hne hpre k hk
    rw [checkFaceAux, if_pos hi] at heq
    simp only [Option.some.injEq, Prod.mk.injEq] at heq
    obtain ⟨h1, h2⟩ := heq
    subst h1
    exact hpre k (lt_of_lt_of_le hk hi)
  | case2 w i ws hi hco =>
    intro w' ws' heq hne hpre k hk
    rw [checkFaceAux, if_neg hi, if_pos hco] at heq
    exact absurd heq (by simp)
  | case3 w i ws hi hco hdeg hshort =>
    intro w' ws' heq hne hpre k hk
    rw [checkFaceAux, if_neg hi, if_neg hco, if_pos hdeg, if_pos hshort] at heq
    simp only [Option.some.injEq, Prod.mk.injEq] at heq
    exact absurd heq.1.symm hne
  | case4 w i ws hi hco hdeg hlong ih =>
    intro w' ws' heq hne hpre k hk
    rw [checkFaceAux, if_neg hi, if_neg hco, if_pos hdeg, if_neg hlong] at heq
    exact ih w' ws' heq hne (by omega) k hk
  | case5 w i ws hi hco hdeg hviol =>
    intro w' ws' heq hne hpre k hk
    rw [checkFaceAux, if_neg hi, if_neg hco, if_neg hdeg, if_pos hviol] at heq
    simp only [Option.some.injEq, Prod.mk.injEq] at heq
    exact absurd heq.1.symm hne
  | case6 w i ws hi hco hdeg hok ih =>
    intro w' ws' heq hne hpre k hk
    rw [checkFaceAux, if_neg hi, if_neg hco, if_neg hdeg, if_neg hok] at heq
    refine ih w' ws' heq hne ?_ k hk
    intro k2 hk2
    rcases Nat.lt_or_ge k2 i with h | h
    · exact hpre k2 h
    · have hki : k2 = i := by omega
      subst hki
      exact hok

lemma checkFaceAux_clears (plane : QPlane) (eps wext : ℝ) :
    ∀ (w : List Vec3) (i : Nat) (ws : List Warn),
    (∀ k, k < w.length → ¬ coordOutOfRange wext (w.getD k default)) →
    (∀ k, k < w.length → ¬ vlen (edgeVecAt w k) < eps) →
    (∃ k, i ≤ k ∧ k < w.length ∧ convexViolationAt plane eps w k) →
    ∃ ws', checkFaceAux plane eps wext w i ws = some ([], ws') ∧
      Warn.nonConvex ∈ ws' := by
  intro w i ws
  induction w, i, ws using checkFaceAux.induct plane eps wext with
  | case1 w i ws hi =>
    intro _ _ hviol
    obtain ⟨k, hik, hkw, _⟩ := hviol
    omega
  | case2 w i ws hi hco =>
    intro hwin _ _
    exact absurd hco (hwin i (by omega))
  | case3 w i ws hi hco hdeg hshort =>
    intro _ hnodeg _
    exact absurd hdeg (hnodeg i (by omega))
  | case4 w i ws hi hco hdeg hlong ih =>
    intro _ hnodeg _
    exact absurd hdeg (hnodeg i (by omega))
  | case5 w i ws hi hco hdeg hviol =>
    intro _ _ _
    refine ⟨_, checkFaceAux_convex_clear plane eps wext w i ws hi hco hdeg hviol, ?_⟩
    simp
  | case6 w i ws hi hco hdeg hok ih =>
    intro hwin hnodeg hviol
    rw [checkFaceAux_next plane eps wext w i ws hi hco hdeg hok]
    refine ih hwin hnodeg ?_
    obtain ⟨k, hik, hkw, hv⟩ := hviol
    have hki : k ≠ i := fun h => hok (h ▸ hv)
    exact ⟨k, by omega, hkw, hv⟩

/-- **C3**: (a) every winding left non-empty by `checkFace` is convex —
for each edge `i`, every other vertex `j` lies on or behind the edge's
cutting plane (normalized cross of face normal and edge vector, offset
`dot(p1, normal) + eps`); and (b) on a winding with in-range
coordinates and no degenerate edge, a convexity violation at any edge
makes `checkFace` clear the entire winding to empty with a non-convex
warning (no partial repair). -/
theorem claim_C3 (plane : QPlane) (eps wext : ℝ) :
    (∀ (w w' : List Vec3) (ws : List Warn),
      checkFace plane eps wext w = some (w', ws) → w' ≠ [] →
      ∀ i, i < w'.length → ∀ j, j < w'.length → j ≠ i →
        vdot (w'.getD j default) (edgeNormalAt plane w' i) ≤
          edgeDistAt plane eps w' i) ∧
    (∀ (w : List Vec3),
      3 ≤ w.length →
      (∀ k, k < w.length → ¬ coordOutOfRange wext (w.getD k default)) →
      (∀ k, k < w.length → ¬ vlen (edgeVecAt w k) < eps) →
      (∃ k, k < w.length ∧ convexViolationAt plane eps w k) →
      ∃ ws, checkFace plane eps wext w = some ([], ws) ∧ Warn.nonConvex ∈ ws) := by
  constructor
  · intro w w' ws heq hne i hi j hj hjne
    rw [checkFace] at heq
    by_cases hw3 : w.length < 3
    · rw [if_pos hw3] at heq
      simp only [Option.some.injEq, Prod.mk.injEq] at heq
      exact absurd heq.1.symm hne
    · rw [if_neg hw3] at heq
      have hpost := checkFaceAux_post plane eps wext w 0 [] w' ws heq hne
        (by intro k hk; omega) i hi
      by_contra hgt
      exact hpost ⟨j, hj, hjne, not_le.mp hgt⟩
  · intro w hw3 hwin hnodeg hviol
    rw [checkFace, if_neg (by omega)]
    refine checkFaceAux_clears plane eps wext w 0 [] hwin hnodeg ?_
    obtain ⟨k, hkw, hv⟩ := hviol
    exact ⟨k, Nat.zero_le _, hkw, hv⟩

lemma wsAfterOffPlane_eq (plane : QPlane) (eps : ℝ) (w : List Vec3) (i : Nat)
    (ws : List Warn) (h : ¬ offPlaneAt plane eps w i) :
    wsAfterOffPlane plane eps w i ws = ws := by
  rw [wsAfterOffPlane, if_neg h]

/-- The unit square in the z = 0 plane, wound clockwise as seen from
the +z side (the orientation `CheckFace` accepts). -/
def sqW : List Vec3 := [⟨0, 0, 0⟩, ⟨0, 1, 0⟩, ⟨1, 1, 0⟩, ⟨1, 0, 0⟩]

set_option maxHeartbeats 1000000 in
lemma sq_aux_eval (ws : List Warn) :
    checkFaceAux plZ ((1:ℝ)/1000) 1000 sqW 0 ws = some (sqW, ws) := by
  have hok : ∀ i, i < 4 → ¬ convexViolationAt plZ ((1:ℝ)/1000) sqW i := by
    intro i hi4
    rintro ⟨j, hj, hne, hgt⟩
    have hj4 : j < 4 := by simpa [sqW] using hj
    simp only [sqW, plZ, edgeNormalAt, edgeVecAt, edgeDistAt, vnormalize, vcross,
      vsub, vdot, vlen, List.getD, List.length_cons, List.length_nil] at hgt
    interval_cases i <;> interval_cases j <;>
      first
        | exact hne rfl
        | (simp only [List.get?] at hgt; norm_num [Real.sqrt_one] at hgt)
  have hco : ∀ i, i < 4 → ¬ coordOutOfRange 1000 (sqW.getD i default) := by
    intro i hi4
    interval_cases i <;>
      (simp only [coordOutOfRange, sqW, List.getD, List.get?]; norm_num)
  have hdeg : ∀ i, i < 4 → ¬ vlen (edgeVecAt sqW i) < ((1:ℝ)/1000) := by
    intro i hi4
    interval_cases i <;>
      (simp only [edgeVecAt, sqW, vsub, vlen, vdot, List.getD, List.get?,
        List.length_cons, List.length_nil]
       norm_num [Real.sqrt_one])
  have hoff : ∀ i, i < 4 → ¬ offPlaneAt plZ ((1:ℝ)/1000) sqW i := by
    intro i hi4
    interval_cases i <;>
      (simp only [offPlaneAt, plZ, QPlane.distance_to, vdot, sqW, List.getD, List.get?]
       norm_num)
  rw [checkFaceAux_next _ _ _ _ _ _ (by norm_num [sqW]) (hco 0 (by norm_num))
      (hdeg 0 (by norm_num)) (hok 0 (by norm_num)),
    wsAfterOffPlane_eq _ _ _ _ _ (hoff 0 (by norm_num))]
  rw [checkFaceAux_next _ _ _ _ _ _ (by norm_num [sqW]) (hco 1 (by norm_num))
      (hdeg 1 (by norm_num)) (hok 1 (by norm_num)),
    wsAfterOffPlane_eq _ _ _ _ _ (hoff 1 (by norm_num))]
  rw [checkFaceAux_next _ _ _ _ _ _ (by norm_num [sqW]) (hco 2 (by norm_num))
      (hdeg 2 (by norm_num)) (hok 2 (by norm_num)),
    wsAfterOffPlane_eq _ _ _ _ _ (hoff 2 (by norm_num))]
  rw [checkFaceAux_next _ _ _ _ _ _ (by norm_num [sqW]) (hco 3 (by norm_num))
      (hdeg 3 (by norm_num)) (hok 3 (by norm_num)),
    wsAfterOffPlane_eq _ _ _ _ _ (hoff 3 (by norm_num))]
  rw [checkFaceAux_exit _ _ _ _ _ _ (by norm_num [sqW])]

lemma sq_eval : checkFace plZ ((1:ℝ)/1000) 1000 sqW = some (sqW, []) := by
  rw [checkFace, if_neg (by norm_num [sqW])]
  exact sq_aux_eval []

/-! ## Counterexample to C4 as claimed — the repair removes point[i],
not point[i+1] -/

/-- A five-point winding whose first edge is degenerate (length
1/10000, below the epsilon 1/1000) but whose two endpoints are
distinct reals, so the healed winding reveals which endpoint the
repair removed. -/
noncomputable def wC4x : List Vec3 := ⟨1/10000, 0, 0⟩ :: sqW

/-- Counterexample to C4 as stated: on `wC4x` the degenerate-edge
repair at edge 0 does not remove `point[0+1]` — the program's repair
(the shift loop of brush.cc:123–125) keeps `point[1]` and drops
`point[0]`, and running the whole Face Validator returns the unit
square `sqW = wC4x.eraseIdx 0`, not `wC4x.eraseIdx 1`. -/
theorem claim_C4_counterexample :
    healDegenerate wC4x 0 ≠ wC4x.eraseIdx (0 + 1) ∧
    checkFace plZ ((1:ℝ)/1000) 1000 wC4x = some (sqW, [Warn.degenerateEdge]) ∧
    sqW ≠ wC4x.eraseIdx (0 + 1) := by
  have hheal : healDegenerate wC4x 0 = sqW := by
    simp [healDegenerate, wC4x, sqW]
  have hersq : sqW ≠ wC4x.eraseIdx (0 + 1) := by
    intro h
    simp only [wC4x, sqW, List.eraseIdx] at h
    rw [List.cons.injEq] at h
    have hx := congrArg Vec3.x h.1
    norm_num at hx
  refine ⟨by rw [hheal]; exact hersq, ?_, hersq⟩
  have hev : edgeVecAt wC4x 0 = ⟨0 - 1/10000, 0 - 0, 0 - 0⟩ := by
    simp only [edgeVecAt, wC4x, sqW, vsub, List.getD, List.get?,
      List.length_cons, List.length_nil, Option.getD_some]
  have hlv : vlen (⟨0 - 1/10000, 0 - 0, 0 - 0⟩ : Vec3) = 1/10000 := by
    simp only [vlen, vdot]
    rw [show ((0 - 1/10000) * (0 - 1/10000) + (0 - 0) * (0 - 0) +
        (0 - 0) * (0 - 0) : ℝ) = (1/10000)^2 from by norm_num]
    rw [Real.sqrt_sq (by norm_num)]
  have hdeg0 : vlen (edgeVecAt wC4x 0) < (1:ℝ)/1000 := by
    rw [hev, hlv]
    norm_num
  have hoff0 : ¬ offPlaneAt plZ ((1:ℝ)/1000) wC4x 0 := by
    simp only [offPlaneAt, plZ, QPlane.distance_to, vdot, wC4x, sqW,
      List.getD, List.get?]
    norm_num
  rw [checkFace, if_neg (by norm_num [wC4x, sqW])]
  rw [checkFaceAux_heal_cont _ _ _ _ _ _ (by norm_num [wC4x, sqW])
    (by simp only [coordOutOfRange, wC4x, sqW, List.getD, List.get?]
        norm_num [abs_le])
    hdeg0 (by rw [hheal]; norm_num [sqW])]
  rw [hheal, wsAfterOffPlane_eq _ _ _ _ _ hoff0, List.nil_append]
  exact sq_aux_eval [Warn.degenerateEdge]

/-- Witness for C3: the unit square is accepted unchanged by
`checkFace`, and (instantiating the theorem at edge 0 and vertex 2)
satisfies the convexity bound. -/
theorem claim_C3_witness :
    vdot (sqW.getD 2 default) (edgeNormalAt plZ sqW 0) ≤
      edgeDistAt plZ ((1:ℝ)/1000) sqW 0 :=
  (claim_C3 plZ ((1:ℝ)/1000) 1000).1 sqW sqW [] sq_eval (by simp [sqW])
    0 (by norm_num [sqW]) 2 (by norm_num [sqW]) (by norm_num)

/-! ## Claim C9 — the bounds invariant -/

/-- A concrete brush whose only face's winding is degenerate (2 points,
cleared by validation) while its precomputed source bounds are the box
from the origin to (5,5,5). -/
def mbC9 : MapBrush :=
  ⟨[{ faceOf "rock" 1 with winding := [vzero, ⟨1, 0, 0⟩] }], vzero, ⟨5, 5, 5⟩⟩

/-- The brush `LoadBrush` produces from `mbC9`: one side with an empty
(cleared) winding, bounds copied from the source brush. -/
def brC9 : BspBrush ContentFlags :=
  { contents := mkContents CONTENTS_SOLID,
    sides := [{ texinfo := 0, planenum := 0, bevel := false, w := [], lmshift := 0 }],
    bounds := some (vzero, ⟨5, 5, 5⟩), lmshift := 0, func_areaportal := false,
    sphere_origin := vzero, sphere_radius := 0 }

lemma loadBrush_mbC9 :
    LoadBrush (fun _ => default) ((1:ℝ)/1000) 1000 mbC9
      (mkContents CONTENTS_SOLID) 0 = some (some brC9) := by
  have hcf : checkFace (default : QPlane) ((1:ℝ)/1000) 1000 [vzero, ⟨1, 0, 0⟩] =
      some ([], [Warn.tooFewPoints 2]) := by
    rw [checkFace, if_pos (by norm_num)]
    norm_num
  simp only [LoadBrush, loadBrushSides, mbC9, faceOf, Bool.false_eq_true, if_false,
    hcf]
  simp [brC9, MapBrush.bounds]

/-- Counterexample for C9 as stated: `LoadBrush` on `mbC9` produces a
brush whose bounds (the source brush's precomputed box) differ from the
union of its sides' winding bounds (empty, since validation cleared the
only winding) — the invariant does not hold for brushes produced by
`LoadBrush`. -/
theorem claim_C9_counterexample :
    LoadBrush (fun _ => default) ((1:ℝ)/1000) 1000 mbC9
        (mkContents CONTENTS_SOLID) 0 = some (some brC9) ∧
    brC9.bounds ≠
      brC9.sides.foldl (fun acc face => aabbUnion acc (windingBounds face.w)) none := by
  refine ⟨loadBrush_mbC9, ?_⟩
  simp [brC9, windingBounds, aabbUnion]

/-- **C9 (amended)**: a brush produced by `LoadBrush` has its bounding
box taken directly from the source brush's precomputed bounds (the
explicit TODO at brush.cc line 358), not recomputed from the validated
windings; `bspbrush_t::update_bounds`, when invoked, does set the
bounds to the union of all side windings' bounds. -/
theorem claim_C9 {C : Type} (getplane : Nat → QPlane) (eps wext : ℝ)
    (mapbrush : MapBrush) (contents : C) (hullnum : Int) :
    (∀ b, LoadBrush getplane eps wext mapbrush contents hullnum = some (some b) →
      b.bounds = mapbrush.bounds) ∧
    (∀ b : BspBrush C, (update_bounds b).bounds =
      b.sides.foldl (fun acc face => aabbUnion acc (windingBounds face.w)) none) := by
  constructor
  · intro b hb
    cases h : loadBrushSides getplane eps wext hullnum mapbrush.faces with
    | none => rw [LoadBrush, h] at hb; exact absurd hb (by simp)
    | some sides =>
      rw [LoadBrush, h] at hb
      simp only [Option.some.injEq] at hb
      subst hb
      rfl
  · intro b
    rfl

/-- Witness for C9 (amended): on `mbC9` the loaded brush's bounds are
the source bounds, and `update_bounds` on that brush recomputes them to
the (empty) union of its side winding bounds. -/
theorem claim_C9_witness :
    brC9.bounds = mbC9.bounds ∧ (update_bounds brC9).bounds = none := by
  have h := claim_C9 (fun _ => (default : QPlane)) ((1:ℝ)/1000) 1000 mbC9
    (mkContents CONTENTS_SOLID) 0
  constructor
  · exact h.1 brC9 loadBrush_mbC9
  · rw [h.2 brC9]
    simp [brC9, windingBounds, aabbUnion]

/-! ## Claims C5 and C6 — hull-dependent reclassification -/

lemma loadBrush_some {C : Type} (getplane : Nat → QPlane) (eps wext : ℝ)
    (mb : MapBrush) (c : C) (hullnum : Int) (b : BspBrush C)
    (hb : LoadBrush getplane eps wext mb c hullnum = some (some b)) :
    b.contents = c ∧ b.bounds = mb.bounds := by
  cases h : loadBrushSides getplane eps wext hullnum mb.faces with
  | none => rw [LoadBrush, h] at hb; exact absurd hb (by simp)
  | some sides =>
    rw [LoadBrush, h] at hb
    simp only [Option.some.injEq] at hb
    subst hb
    exact ⟨rfl, rfl⟩

/-- **C5 (amended)**: during aggregation into the world, for a solid
brush flagged detail (inherited from a `func_detail` classname), the
detail promotion is applied exactly when `hullnum ≤ 0` — that is, for
hull 0 AND for the negative `HULL_COLLISION` sentinel — and is not
applied for any positive hull: the loaded brush's contents is the
detail-solid transformation of the classified contents for
`hullnum ≤ 0`, and the untransformed classified contents for
`hullnum > 0` (extended flags applied in both cases). -/
theorem claim_C5 {C : Type} (ctx : QbspCtx C) (ectx : EntityCtx) (mb : MapBrush)
    (c0 : C) (hc0 : c0 = (Brush_GetContents ctx.game ctx.mtexinfos mb).1)
    (ho : ctx.omitdetail = false)
    (hdet : ectx.all_detail = true)
    (hdi : ectx.all_detail_illusionary = false)
    (hdf : ectx.all_detail_fence = false)
    (horig : ctx.game.is_origin c0 = false)
    (hsolid : ctx.game.is_solid c0 = true) :
    (∀ hullnum : Int, hullnum ≤ 0 →
      ctx.game.is_clip (ctx.game.create_detail_solid_contents c0) = false →
      MapBrush_IsHint mb = false →
      ∀ b, processMapBrush ctx ectx true hullnum mb = some (BrushAction.addBrush b) →
        b.contents = extFlags ctx.game ectx (ctx.game.create_detail_solid_contents c0)) ∧
    (∀ hullnum : Int, 0 < hullnum →
      ctx.game.is_clip c0 = false →
      ctx.game.is_sky c0 = false →
      MapBrush_IsHint mb = false →
      ∀ b, processMapBrush ctx ectx true hullnum mb = some (BrushAction.addBrush b) →
        b.contents = extFlags ctx.game ectx c0) := by
  subst hc0
  constructor
  · intro hullnum hh hclip hhint b hb
    have hnpos : ¬ (0 : Int) < hullnum := not_lt.mpr hh
    simp only [processMapBrush, horig, ho, hdet, hdi, hdf, hsolid, hclip, hhint, hh,
      hnpos, Bool.false_eq_true, Bool.true_eq_false, if_false, if_true, false_or,
      or_false, false_and, and_false, and_true, true_and, not_true_eq_false,
      not_false_eq_true, if_neg, le_refl, ite_false, ite_true, not_lt,
      false_implies, Bool.not_eq_true] at hb
    cases hl : LoadBrush ctx.getplane ctx.epsilon ctx.worldextent mb
        (extFlags ctx.game ectx (ctx.game.create_detail_solid_contents
          (Brush_GetContents ctx.game ctx.mtexinfos mb).1)) hullnum with
    | none => rw [hl] at hb; exact absurd hb (by simp)
    | some o =>
      rw [hl] at hb
      cases o with
      | none => exact absurd hb (by simp)
      | some b0 =>
        simp only [Option.some.injEq, BrushAction.addBrush.injEq] at hb
        subst hb
        exact (loadBrush_some _ _ _ _ _ _ _ hl).1
  · intro hullnum hpos hclip hsky hhint b hb
    have hnle : ¬ hullnum ≤ (0 : Int) := not_le.mpr hpos
    simp only [processMapBrush, horig, ho, hdet, hdi, hdf, hsolid, hclip, hsky, hhint,
      hpos, hnle, Bool.false_eq_true, Bool.true_eq_false, if_false, if_true, false_or,
      or_false, false_and, and_false, and_true, true_and, not_true_eq_false,
      not_false_eq_true, if_neg, le_refl, ite_false, ite_true, not_lt,
      false_implies, Bool.not_eq_true] at hb
    cases hl : LoadBrush ctx.getplane ctx.epsilon ctx.worldextent mb
        (extFlags ctx.game ectx (Brush_GetContents ctx.game ctx.mtexinfos mb).1)
        hullnum with
    | none => rw [hl] at hb; exact absurd hb (by simp)
    | some o =>
      rw [hl] at hb
      cases o with
      | none => exact absurd hb (by simp)
      | some b0 =>
        simp only [Option.some.injEq, BrushAction.addBrush.injEq] at hb
        subst hb
        exact (loadBrush_some _ _ _ _ _ _ _ hl).1

/-- A plain solid one-face brush. -/
def mbSolid : MapBrush := ⟨[faceOf "rock" 1], vzero, vzero⟩

/-- A `func_detail` source entity owning `mbSolid`. -/
def entDetail : MapEntity :=
  { epairs := { epairs0 with get := fun k => if k == "classname" then "func_detail" else "" },
    mapbrushes := [mbSolid] }

/-- The brush the aggregator loads from `mbSolid` under `entDetail` for
`hullnum ≤ 0`: contents promoted to detail-solid. -/
def brC5 : BspBrush ContentFlags :=
  { contents := { native := CONTENTS_SOLID, detail := true, detail_fence := false,
                  detail_illusionary := false, mirror_inside := none,
                  clips_same_type := none, illusionary_visblocker := false },
    sides := [{ texinfo := 0, planenum := 0, bevel := false, w := [], lmshift := 4 }],
    bounds := some (vzero, vzero), lmshift := 4, func_areaportal := false,
    sphere_origin := vzero, sphere_radius := 0 }

/-- Counterexample for C5 as stated: for `hullnum = HULL_COLLISION`
(a non-zero hull number, since `HULL_COLLISION = -1`), the detail
promotion IS applied — the loaded brush's contents carries the detail
bit (the code's guard at brush.cc line 463 is `hullnum <= 0`, not
`hullnum == 0`). -/
theorem claim_C5_counterexample :
    processMapBrush ctx0 (mkEntityCtx ctx0 entDetail) true HULL_COLLISION mbSolid =
      some (BrushAction.addBrush brC5) ∧
    brC5.contents.detail = true ∧ HULL_COLLISION ≠ 0 := by
  refine ⟨?_, rfl, by norm_num [HULL_COLLISION]⟩
  simp only [processMapBrush, LoadBrush, loadBrushSides, checkFace, ctx0, specPolicy,
    mkEntityCtx, entDetail, epairs0, mti0, mbSolid, faceOf, mkContents,
    CONTENTS_EMPTY, CONTENTS_SOLID, CONTENTS_ORIGIN, CONTENTS_CLIP, CONTENTS_SKY,
    Brush_GetContents, bgcLoop, derivedContents, MapBrush_IsHint, HULL_COLLISION,
    string_iequals, lmshiftOf, qtrunc, lmshiftLoop, extFlags, MapBrush.bounds]
  simp [brC5, lmshiftLoop, CONTENTS_SOLID, CONTENTS_WATER, mkContents]

/-- Witness for C5 (amended): at hull 0 the same brush is promoted to
detail-solid, as the theorem's first clause states. -/
theorem claim_C5_witness :
    processMapBrush ctx0 (mkEntityCtx ctx0 entDetail) true 0 mbSolid =
      some (BrushAction.addBrush brC5) ∧
    brC5.contents = extFlags specPolicy (mkEntityCtx ctx0 entDetail)
      (specPolicy.create_detail_solid_contents
        (Brush_GetContents specPolicy mti0 mbSolid).1) := by
  have heval : processMapBrush ctx0 (mkEntityCtx ctx0 entDetail) true 0 mbSolid =
      some (BrushAction.addBrush brC5) := by
    simp only [processMapBrush, LoadBrush, loadBrushSides, checkFace, ctx0, specPolicy,
      mkEntityCtx, entDetail, epairs0, mti0, mbSolid, faceOf, mkContents,
      CONTENTS_EMPTY, CONTENTS_SOLID, CONTENTS_ORIGIN, CONTENTS_CLIP, CONTENTS_SKY,
      Brush_GetContents, bgcLoop, derivedContents, MapBrush_IsHint, HULL_COLLISION,
      string_iequals, lmshiftOf, qtrunc, lmshiftLoop, extFlags, MapBrush.bounds]
    simp [brC5, lmshiftLoop, CONTENTS_SOLID, CONTENTS_WATER, mkContents]
  refine ⟨heval, ?_⟩
  exact (claim_C5 ctx0 (mkEntityCtx ctx0 entDetail) mbSolid _ rfl rfl (by rfl)
    (by rfl) (by rfl) (by rfl) (by rfl)).1 0 (by norm_num) (by rfl) (by rfl)
    brC5 heval

/-- **C6**: for a brush classified clip (and not solid, so detail
promotion leaves it untouched): aggregated at hull 0 its bounds are
added to the destination entity but no brush is appended; aggregated at
any hull other than 0 and other than `HULL_COLLISION`, its contents is
converted to ordinary solid before loading.  `hsS`/`hsK` are the
policy sanity facts that solid contents is solid and not sky. -/
theorem claim_C6 {C : Type} (ctx : QbspCtx C) (ectx : EntityCtx) (mb : MapBrush)
    (c0 : C) (hc0 : c0 = (Brush_GetContents ctx.game ctx.mtexinfos mb).1)
    (horig : ctx.game.is_origin c0 = false)
    (ho : ctx.omitdetail = false)
    (hoi : ctx.omitdetailillusionary = false)
    (hof : ctx.omitdetailfence = false)
    (hnsolid : ctx.game.is_solid c0 = false)
    (hclip : ctx.game.is_clip c0 = true)
    (hdi : ectx.all_detail_illusionary = false) :
    (∀ dstIsWorld : Bool,
      (loadBrushSides ctx.getplane ctx.epsilon ctx.worldextent 0 mb.faces).isSome = true →
      processMapBrush ctx ectx dstIsWorld 0 mb =
        some (BrushAction.addBounds mb.bounds) ∧
      ∀ d : DstEntity C,
        (applyBrushAction d (BrushAction.addBounds mb.bounds)).brushes = d.brushes ∧
        (applyBrushAction d (BrushAction.addBounds mb.bounds)).bounds =
          aabbUnion d.bounds mb.bounds) ∧
    (∀ hullnum : Int, hullnum ≠ 0 → hullnum ≠ HULL_COLLISION →
      ctx.game.is_solid ctx.game.create_solid_contents = true →
      ctx.game.is_sky ctx.game.create_solid_contents = false →
      MapBrush_IsHint mb = false →
      ∀ b, processMapBrush ctx ectx true hullnum mb = some (BrushAction.addBrush b) →
        b.contents = extFlags ctx.game ectx ctx.game.create_solid_contents) := by
  subst hc0
  constructor
  · intro dstIsWorld hsides
    have hhc : (0 : Int) ≠ HULL_COLLISION := by norm_num [HULL_COLLISION]
    constructor
    · simp only [processMapBrush, horig, ho, hoi, hof, hnsolid, hclip, hdi, hhc,
        Bool.false_eq_true, Bool.true_eq_false, if_false, if_true, false_or, or_false,
        false_and, and_false, and_true, true_and, not_true_eq_false,
        not_false_eq_true, if_neg, le_refl, ite_false, ite_true, lt_irrefl,
        ne_eq, not_lt, le_rfl, false_implies, Bool.not_eq_true, if_pos]
      rw [Option.isSome_iff_exists] at hsides
      obtain ⟨sides, hs⟩ := hsides
      rw [LoadBrush, hs]
    · intro d
      exact ⟨rfl, rfl⟩
  · intro hullnum hz hhc hsS hsK hhint b hb
    have hz2 : ¬ hullnum = (0 : Int) := hz
    simp only [processMapBrush, horig, ho, hoi, hof, hnsolid, hclip, hdi, hhint,
      hsS, hsK, hz2, hhc, Bool.false_eq_true, Bool.true_eq_false, if_false, if_true,
      false_or, or_false, false_and, and_false, and_true, true_and,
      not_true_eq_false, not_false_eq_true, le_refl, ite_false, ite_true, ne_eq,
      false_implies, Bool.not_eq_true] at hb
    cases hl : LoadBrush ctx.getplane ctx.epsilon ctx.worldextent mb
        (extFlags ctx.game ectx ctx.game.create_solid_contents) hullnum with
    | none => rw [hl] at hb; exact absurd hb (by simp)
    | some o =>
      rw [hl] at hb
      cases o with
      | none => exact absurd hb (by simp)
      | some b0 =>
        simp only [Option.some.injEq, BrushAction.addBrush.injEq] at hb
        subst hb
        exact (loadBrush_some _ _ _ _ _ _ _ hl).1

/-- A one-face clip brush. -/
def mbClip : MapBrush := ⟨[faceOf "clip" 1], vzero, vzero⟩

/-- A plain entity owning `mbClip`. -/
def entClip : MapEntity := ⟨epairs0, [mbClip]⟩

/-- The brush loaded from `mbClip` at hull 1: contents converted to
ordinary solid. -/
def bC6 : BspBrush ContentFlags := { brC5 with contents := mkContents CONTENTS_SOLID }

/-- Witness for C6: at hull 0 the clip brush contributes only its
bounds (no brush appended); at hull 1 it is loaded with contents
converted to solid. -/
theorem claim_C6_witness :
    processMapBrush ctx0 (mkEntityCtx ctx0 entClip) true 0 mbClip =
      some (BrushAction.addBounds mbClip.bounds) ∧
    (∀ d : DstEntity ContentFlags,
      (applyBrushAction d (BrushAction.addBounds mbClip.bounds)).brushes = d.brushes) ∧
    processMapBrush ctx0 (mkEntityCtx ctx0 entClip) true 1 mbClip =
      some (BrushAction.addBrush bC6) ∧
    bC6.contents = extFlags specPolicy (mkEntityCtx ctx0 entClip)
      specPolicy.create_solid_contents := by
  have hthm := claim_C6 ctx0 (mkEntityCtx ctx0 entClip) mbClip _ rfl (by rfl)
    (by rfl) (by rfl) (by rfl) (by rfl) (by rfl) (by rfl)
  have hsides : (loadBrushSides ctx0.getplane ctx0.epsilon ctx0.worldextent 0
      mbClip.faces).isSome = true := by
    simp [loadBrushSides, mbClip, faceOf, checkFace]
  have heval1 : processMapBrush ctx0 (mkEntityCtx ctx0 entClip) true 1 mbClip =
      some (BrushAction.addBrush bC6) := by
    simp only [processMapBrush, LoadBrush, loadBrushSides, checkFace, ctx0, specPolicy,
      mkEntityCtx, entClip, epairs0, mti0, mbClip, faceOf, mkContents,
      CONTENTS_EMPTY, CONTENTS_SOLID, CONTENTS_ORIGIN, CONTENTS_CLIP, CONTENTS_SKY,
      Brush_GetContents, bgcLoop, derivedContents, MapBrush_IsHint, HULL_COLLISION,
      string_iequals, lmshiftOf, qtrunc, lmshiftLoop, extFlags, MapBrush.bounds]
    simp [bC6, brC5, lmshiftLoop, CONTENTS_SOLID, CONTENTS_WATER, CONTENTS_CLIP,
      mkContents]
  refine ⟨(hthm.1 true hsides).1, ?_, heval1, ?_⟩
  · intro d
    exact ((hthm.1 true hsides).2 d).1
  · exact hthm.2 1 (by norm_num) (by norm_num [HULL_COLLISION]) (by rfl) (by rfl)
      (by rfl) bC6 heval1

/-! ## Claim C7 — pure-axial bevel computation.

Infrastructure: properties of `listSwap` and of the spec-modelled plane
tables. -/

lemma listSwap_length {α : Type} [Inhabited α] (l : List α) (i j : Nat) :
    (listSwap l i j).length = l.length := by
  simp [listSwap]

lemma listSwap_getElem {α : Type} [Inhabited α] (l : List α) (i j : Nat)
    (hi : i < l.length) (hj : j < l.length) (m : Nat)
    (hm : m < (listSwap l i j).length) :
    (listSwap l i j)[m] = if m = j then l[i] else if m = i then l[j]
      else l.get ⟨m, by simpa [listSwap_length] using hm⟩ := by
  rw [listSwap_length] at hm
  unfold listSwap
  rw [List.getElem_set, List.getElem_set]
  rcases eq_or_ne m j with h | h
  · subst h
    simp [List.getD_eq_getElem l default hi, List.getElem?_eq_getElem hi,
      List.getElem?_eq_getElem hj]
  · rcases eq_or_ne m i with h2 | h2
    · subst h2
      simp [Ne.symm h, h, List.getD_eq_getElem l default hj,
        List.getElem?_eq_getElem hi, List.getElem?_eq_getElem hj]
    · simp [Ne.symm h, Ne.symm h2, h, h2, List.get_eq_getElem]

lemma listSwap_map {α β : Type} [Inhabited α] [Inhabited β] (f : α → β)
    (l : List α) (i j : Nat) (hi : i < l.length) (hj : j < l.length) :
    listSwap (l.map f) i j = (listSwap l i j).map f := by
  refine List.ext_getElem (by simp [listSwap_length]) ?_
  intro m h1 h2
  have hi2 : i < (l.map f).length := by simpa using hi
  have hj2 : j < (l.map f).length := by simpa using hj
  have h3 : m < (listSwap l i j).length := by simpa using h2
  rw [listSwap_getElem (l.map f) i j hi2 hj2 m h1]
  simp only [List.getElem_map]
  rw [listSwap_getElem l i j hi hj m h3]
  rcases eq_or_ne m j with h | h
  · simp [h, apply_ite f]
  · rcases eq_or_ne m i with h2 | h2
    · simp [h, h2, apply_ite f]
    · simp [h, h2]

lemma listSwap_perm {α : Type} [Inhabited α] (l : List α) (i j : Nat)
    (hi : i < l.length) (hj : j < l.length) :
    (listSwap l i j).Perm l := by
  classical
  rw [List.perm_iff_count]
  intro a
  unfold listSwap
  rw [List.getD_eq_getElem l default hi, List.getD_eq_getElem l default hj]
  have hj2 : j < (l.set i (l[j])).length := by simpa using hj
  rw [List.count_set (l[i]) a (l.set i (l[j])) j hj2]
  rw [List.count_set (l[j]) a l i hi]
  have hset : (l.set i (l[j])).get ⟨j, hj2⟩ = l[j] := by
    rw [List.get_eq_getElem, List.getElem_set]
    exact ite_self _
  rw [List.get_eq_getElem] at hset
  rw [hset]
  have hmi : (l[i] == a) = true → 0 < List.count a l := fun hb => by
    have hia : l[i] = a := by simpa using hb
    exact List.count_pos_iff.mpr (hia ▸ List.getElem_mem hi)
  have hmj : (l[j] == a) = true → 0 < List.count a l := fun hb => by
    have hja : l[j] = a := by simpa using hb
    exact List.count_pos_iff.mpr (hja ▸ List.getElem_mem hj)
  by_cases hbi : (l[i] == a) = true <;> by_cases hbj : (l[j] == a) = true
  · have := hmi hbi
    simp only [hbi, hbj, if_true]
    omega
  · have := hmi hbi
    simp only [hbi, hbj, if_true, Bool.false_eq_true, if_false]
    omega
  · have := hmj hbj
    simp only [hbi, hbj, if_true, Bool.false_eq_true, if_false]
    omega
  · simp only [hbi, hbj, Bool.false_eq_true, if_false]
    omega

/-- Well-formedness of the plane state: every cached output index
points at the matching output-lump plane. -/
def WfState (st : MapState) : Prop :=
  ∀ i r, st.planes.get? i = some r → ∀ o, r.outputplanenum = some o →
    st.dplanes.get? o = some r.pl

lemma FindPlane_dplanes (st : MapState) (p : QPlane) :
    (FindPlane st p).2.dplanes = st.dplanes := by
  unfold FindPlane
  cases h : st.planes.findIdx? (fun r => decide (r.pl = p)) <;> rfl

lemma FindPlane_planes_lt (st : MapState) (p : QPlane) :
    (FindPlane st p).1 < (FindPlane st p).2.planes.length := by
  unfold FindPlane
  cases h : st.planes.findIdx? (fun r => decide (r.pl = p)) with
  | none => simp
  | some i =>
    obtain ⟨hlt, -, -⟩ := List.findIdx?_eq_some_iff_getElem.mp h
    simpa using hlt

lemma FindPlane_getMapPlane_preserved (st : MapState) (p : QPlane) (m : Nat)
    (hm : m < st.planes.length) :
    getMapPlane (FindPlane st p).2 m = getMapPlane st m := by
  unfold FindPlane
  cases h : st.planes.findIdx? (fun r => decide (r.pl = p)) with
  | none =>
    simp only [getMapPlane]
    rw [List.getD_eq_getElem _ _ hm,
      List.getD_eq_getElem _ _ (show m <
        (st.planes ++ [(⟨p, none⟩ : PlaneRec), ⟨p.neg, none⟩]).length by
        simp
        omega)]
    rw [List.getElem_append_left hm]
  | some i => rfl

lemma FindPlane_planes_le (st : MapState) (p : QPlane) :
    st.planes.length ≤ (FindPlane st p).2.planes.length := by
  unfold FindPlane
  cases h : st.planes.findIdx? (fun r => decide (r.pl = p)) with
  | none => simp
  | some i => simp

lemma FindPlane_pl (st : MapState) (p : QPlane) :
    getMapPlane (FindPlane st p).2 (FindPlane st p).1 = p := by
  unfold FindPlane
  cases h : st.planes.findIdx? (fun r => decide (r.pl = p)) with
  | none =>
    simp only [getMapPlane]
    rw [List.getD_eq_getElem _ _ (show st.planes.length <
        (st.planes ++ [(⟨p, none⟩ : PlaneRec), ⟨p.neg, none⟩]).length by simp)]
    rw [List.getElem_append_right (le_refl _)]
    simp
  | some i =>
    obtain ⟨hlt, hp, -⟩ := List.findIdx?_eq_some_iff_getElem.mp h
    simp only [getMapPlane]
    rw [List.getD_eq_getElem _ _ hlt]
    exact of_decide_eq_true hp

lemma FindPlane_wf (st : MapState) (p : QPlane) (hwf : WfState st) :
    WfState (FindPlane st p).2 := by
  unfold FindPlane
  cases h : st.planes.findIdx? (fun r => decide (r.pl = p)) with
  | none =>
    intro i r hr o ho
    simp only at hr
    rcases Nat.lt_or_ge i st.planes.length with hl | hl
    · rw [List.get?_eq_getElem?, List.getElem?_append_left hl,
        ← List.get?_eq_getElem?] at hr
      exact hwf i r hr o ho
    · rw [List.get?_eq_getElem?, List.getElem?_append_right hl] at hr
      have hnone : r.outputplanenum = none := by
        rcases hn : i - st.planes.length with _ | _ | n
        · rw [hn] at hr
          simp only [List.getElem?_cons_zero, Option.some.injEq] at hr
          rw [← hr]
        · rw [hn] at hr
          simp only [List.getElem?_cons_succ, List.getElem?_cons_zero,
            Option.some.injEq] at hr
          rw [← hr]
        · rw [hn] at hr
          simp at hr
      rw [hnone] at ho
      exact absurd ho (by simp)
  | some i => exact hwf

lemma ExportMapPlane_eq_cached (st : MapState) (n : Nat) (o : Nat)
    (h : (st.planes.getD n default).outputplanenum = some o) :
    ExportMapPlane st n = (o, st) := by
  simp only [ExportMapPlane, h]

lemma ExportMapPlane_eq_fresh (st : MapState) (n : Nat)
    (h : (st.planes.getD n default).outputplanenum = none) :
    ExportMapPlane st n = (st.dplanes.length,
      ⟨st.planes.set n ⟨(st.planes.getD n default).pl, some st.dplanes.length⟩,
       st.dplanes ++ [(st.planes.getD n default).pl]⟩) := by
  simp only [ExportMapPlane, h]

lemma Export_planes_length (st : MapState) (n : Nat) :
    (ExportMapPlane st n).2.planes.length = st.planes.length := by
  cases h : (st.planes.getD n default).outputplanenum with
  | some o => rw [ExportMapPlane_eq_cached st n o h]
  | none => rw [ExportMapPlane_eq_fresh st n h]; simp

lemma Export_dplanes_ext (st : MapState) (n : Nat) :
    ∃ suf, (ExportMapPlane st n).2.dplanes = st.dplanes ++ suf := by
  cases h : (st.planes.getD n default).outputplanenum with
  | some o => exact ⟨[], by rw [ExportMapPlane_eq_cached st n o h]; simp⟩
  | none =>
    exact ⟨[(st.planes.getD n default).pl], by rw [ExportMapPlane_eq_fresh st n h]⟩

lemma Export_getMapPlane_preserved (st : MapState) (n : Nat) (m : Nat) :
    getMapPlane (ExportMapPlane st n).2 m = getMapPlane st m := by
  cases h : (st.planes.getD n default).outputplanenum with
  | some o => rw [ExportMapPlane_eq_cached st n o h]
  | none =>
    rw [ExportMapPlane_eq_fresh st n h]
    simp only [getMapPlane]
    rcases Nat.lt_or_ge m st.planes.length with hl | hl
    · rw [List.getD_eq_getElem _ _ (by simpa using hl),
        List.getD_eq_getElem _ _ hl, List.getElem_set]
      rcases eq_or_ne n m with hnm | hnm
      · subst hnm
        simp [List.getD_eq_getElem _ _ hl, List.getElem?_eq_getElem hl]
      · simp [hnm]
    · rw [List.getD_eq_default _ _ (by simpa using hl),
        List.getD_eq_default _ _ hl]

lemma Export_val (st : MapState) (n : Nat) (hwf : WfState st)
    (hn : n < st.planes.length) :
    (ExportMapPlane st n).2.dplanes.getD (ExportMapPlane st n).1 default =
      getMapPlane st n ∧
    (ExportMapPlane st n).1 < (ExportMapPlane st n).2.dplanes.length := by
  have hget : st.planes.get? n = some (st.planes.getD n default) := by
    rw [List.get?_eq_getElem?, List.getElem?_eq_getElem hn,
      List.getD_eq_getElem _ _ hn]
  cases h : (st.planes.getD n default).outputplanenum with
  | some o =>
    rw [ExportMapPlane_eq_cached st n o h]
    have hdp := hwf n _ hget o h
    obtain ⟨ho, hv⟩ := List.get?_eq_some.mp hdp
    constructor
    · simp only [getMapPlane]
      rw [List.getD_eq_getElem _ _ ho]
      simpa using hv
    · exact ho
  | none =>
    rw [ExportMapPlane_eq_fresh st n h]
    constructor
    · simp only [getMapPlane]
      rw [List.getD_eq_getElem _ _ (show st.dplanes.length <
          (st.dplanes ++ [(st.planes.getD n default).pl]).length by simp)]
      rw [List.getElem_append_right (le_refl _)]
      simp
    · simp

lemma Export_wf (st : MapState) (n : Nat) (hwf : WfState st) :
    WfState (ExportMapPlane st n).2 := by
  cases h : (st.planes.getD n default).outputplanenum with
  | some o =>
    rw [ExportMapPlane_eq_cached st n o h]
    exact hwf
  | none =>
    rw [ExportMapPlane_eq_fresh st n h]
    intro i r hr o2 ho2
    simp only at hr
    rcases Nat.lt_or_ge i st.planes.length with hl | hl
    · rcases eq_or_ne i n with hin | hin
      · subst hin
        rw [List.get?_eq_getElem?, List.getElem?_eq_getElem (by simpa using hl),
          List.getElem_set] at hr
        simp only [if_pos rfl, Option.some.injEq] at hr
        rw [← hr] at ho2 ⊢
        have ho3 : st.dplanes.length = o2 := by simpa using ho2
        rw [← ho3, List.get?_eq_getElem?,
          List.getElem?_append_right (le_refl _)]
        simp
      · rw [List.get?_eq_getElem?, List.getElem?_eq_getElem (by simpa using hl),
          List.getElem_set, if_neg (Ne.symm hin)] at hr
        have hr2 : st.planes.get? i = some r := by
          rw [List.get?_eq_getElem?, List.getElem?_eq_getElem hl, hr]
        have := hwf i r hr2 o2 ho2
        obtain ⟨hlt2, hv2⟩ := List.get?_eq_some.mp this
        rw [List.get?_eq_getElem?, List.getElem?_append_left hlt2]
        rw [List.getElem?_eq_getElem hlt2]
        have hv3 : st.dplanes[o2] = r.pl := by
          simpa [List.get_eq_getElem] using hv2
        rw [hv3]
    · rw [List.get?_eq_getElem?, List.getElem?_eq_none_iff.mpr (by simpa using hl)] at hr
      exact absurd hr (by simp)

/-- The front-facing plane of a face, as loop 1 of `AddBrushBevels`
computes it. -/
def orientedPlane (st : MapState) (f : OldFace) : QPlane :=
  if f.planeside then (getMapPlane st f.planenum).neg else getMapPlane st f.planenum

lemma bevelFaceStep_spec (entries : List BevelEntry) (st : MapState) (f : OldFace)
    (hwf : WfState st) (hidx : f.planenum < st.planes.length) :
    ∃ o st2, bevelFaceStep (entries, st) f = (entries ++ [(o, some f)], st2) ∧
      WfState st2 ∧ (∃ suf, st2.dplanes = st.dplanes ++ suf) ∧
      st.planes.length ≤ st2.planes.length ∧
      (∀ m, m < st.planes.length → getMapPlane st2 m = getMapPlane st m) ∧
      st2.dplanes.getD o default = orientedPlane st f ∧
      o < st2.dplanes.length := by
  cases hps : f.planeside with
  | false =>
    refine ⟨(ExportMapPlane st f.planenum).1, (ExportMapPlane st f.planenum).2,
      by simp [bevelFaceStep, hps], Export_wf _ _ hwf, Export_dplanes_ext _ _,
      le_of_eq (Export_planes_length _ _).symm,
      fun m _ => Export_getMapPlane_preserved _ _ _, ?_,
      (Export_val st f.planenum hwf hidx).2⟩
    rw [(Export_val st f.planenum hwf hidx).1]
    simp [orientedPlane, hps]
  | true =>
    have h1lt := FindPlane_planes_lt st ((getMapPlane st f.planenum).neg)
    have h1wf := FindPlane_wf st ((getMapPlane st f.planenum).neg) hwf
    have hval := Export_val (FindPlane st ((getMapPlane st f.planenum).neg)).2
      (FindPlane st ((getMapPlane st f.planenum).neg)).1 h1wf h1lt
    refine ⟨_, _, by simp [bevelFaceStep, hps], Export_wf _ _ h1wf, ?_, ?_, ?_, ?_,
      hval.2⟩
    · obtain ⟨suf, hsuf⟩ := Export_dplanes_ext
        (FindPlane st ((getMapPlane st f.planenum).neg)).2
        (FindPlane st ((getMapPlane st f.planenum).neg)).1
      exact ⟨suf, by rw [hsuf, FindPlane_dplanes]⟩
    · rw [Export_planes_length]
      exact FindPlane_planes_le st _
    · intro m hm
      rw [Export_getMapPlane_preserved, FindPlane_getMapPlane_preserved st _ m hm]
    · rw [hval.1, FindPlane_pl]
      simp [orientedPlane, hps]

lemma loop1_fold (faces : List OldFace) :
    ∀ (entries : List BevelEntry) (st : MapState), WfState st →
    (∀ f ∈ faces, f.planenum < st.planes.length) →
    (∀ e ∈ entries, e.1 < st.dplanes.length) →
    WfState (faces.foldl bevelFaceStep (entries, st)).2 ∧
    (∃ suf, (faces.foldl bevelFaceStep (entries, st)).2.dplanes = st.dplanes ++ suf) ∧
    st.planes.length ≤ (faces.foldl bevelFaceStep (entries, st)).2.planes.length ∧
    (∀ m, m < st.planes.length →
      getMapPlane (faces.foldl bevelFaceStep (entries, st)).2 m = getMapPlane st m) ∧
    (∀ e ∈ (faces.foldl bevelFaceStep (entries, st)).1,
      e.1 < (faces.foldl bevelFaceStep (entries, st)).2.dplanes.length) ∧
    (faces.foldl bevelFaceStep (entries, st)).1.map
        (valOf (faces.foldl bevelFaceStep (entries, st)).2) =
      entries.map (valOf st) ++ faces.map (orientedPlane st) := by
  induction faces with
  | nil =>
    intro entries st hwf _ hent
    exact ⟨hwf, ⟨[], by simp⟩, le_refl _, fun m _ => rfl, fun e he => hent e he,
      by simp⟩
  | cons f rest ih =>
    intro entries st hwf hidx hent
    obtain ⟨o, st2, hstep, hwf2, ⟨suf, hsuf⟩, hple, hpres, hvalo, holt⟩ :=
      bevelFaceStep_spec entries st f hwf (hidx f (by simp))
    rw [List.foldl_cons, hstep]
    have hidx2 : ∀ g ∈ rest, g.planenum < st2.planes.length :=
      fun g hg => lt_of_lt_of_le (hidx g (List.mem_cons_of_mem _ hg)) hple
    have hent2 : ∀ e ∈ entries ++ [(o, some f)], e.1 < st2.dplanes.length := by
      intro e he
      rcases List.mem_append.mp he with h | h
      · have := hent e h
        rw [hsuf]
        simp only [List.length_append]
        omega
      · rw [List.mem_singleton] at h
        subst h
        exact holt
    obtain ⟨rwf, ⟨suf2, hsuf2⟩, rple, rpres, rbound, rmap⟩ := ih
      (entries ++ [(o, some f)]) st2 hwf2 hidx2 hent2
    refine ⟨rwf, ⟨suf ++ suf2, by rw [hsuf2, hsuf, List.append_assoc]⟩,
      le_trans hple rple, ?_, rbound, ?_⟩
    · intro m hm
      rw [rpres m (lt_of_lt_of_le hm hple), hpres m hm]
    · rw [rmap]
      have hmap1 : (entries ++ [(o, some f)]).map (valOf st2) =
          entries.map (valOf st) ++ [orientedPlane st f] := by
        rw [List.map_append]
        congr 1
        · refine List.map_congr_left ?_
          intro e he
          have hlt := hent e he
          simp only [valOf]
          rw [hsuf, List.getD_eq_getElem _ _ (by simp only [List.length_append]; omega),
            List.getD_eq_getElem _ _ hlt, List.getElem_append_left hlt]
        · have hv : valOf st2 (o, some f) = orientedPlane st f := hvalo
          simp [hv]
      have hmap2 : rest.map (orientedPlane st2) = rest.map (orientedPlane st) := by
        refine List.map_congr_left ?_
        intro g hg
        have hglt := hidx g (List.mem_cons_of_mem _ hg)
        simp only [orientedPlane]
        rw [hpres g.planenum hglt]
      rw [hmap1, hmap2, List.map_cons, List.append_assoc]
      rfl

/-- The canonical axial bounding plane of a brush for one
(axis, direction) pair, as the axial loop synthesizes it (qbsp.cc lines
150–155). -/
def axialPlane (b : OldBrush) (ad : Nat × Int) : QPlane :=
  ⟨axialNormal ad.1 ad.2,
   if ad.2 = 1 then b.boundsMaxs.nth ad.1 else -(b.boundsMins.nth ad.1)⟩

/-- The six canonical axial bounding planes, in canonical order. -/
def canonicalAxialPlanes (b : OldBrush) : List QPlane := axisDirs.map (axialPlane b)

lemma axisDirs_nodup : axisDirs.Nodup := by decide

lemma axialPlane_pred (b : OldBrush) (p q : Nat × Int) (hp : p ∈ axisDirs)
    (hq : q ∈ axisDirs) :
    (axialPlane b p).normal.nth q.1 = (q.2 : ℝ) ↔ p = q := by
  fin_cases hp <;> fin_cases hq <;>
    norm_num [axialPlane, axialNormal, Vec3.nth] <;> decide

lemma canon_pred_char (b : OldBrush) (axis : Nat) (dir : Int)
    (hkmem : (axis, dir) ∈ axisDirs) (q : QPlane)
    (hq : q ∈ canonicalAxialPlanes b) :
    (q.normal.nth axis = (dir : ℝ)) ↔ q = axialPlane b (axis, dir) := by
  obtain ⟨p, hpmem, hpq⟩ := List.mem_map.mp hq
  subst hpq
  constructor
  · intro h
    have := (axialPlane_pred b p (axis, dir) hpmem hkmem).mp h
    rw [this]
  · intro h
    rw [h]
    exact (axialPlane_pred b (axis, dir) (axis, dir) hkmem hkmem).mpr rfl

lemma axial_step (b : OldBrush) (st : MapState) (entries : List BevelEntry)
    (k axis : Nat) (dir : Int)
    (hk : axisDirs[k]? = some (axis, dir))
    (hlen : entries.length = 6)
    (hperm : (entries.map (valOf st)).Perm (canonicalAxialPlanes b))
    (hpre : ∀ m, m < k →
      (entries.map (valOf st))[m]? = (canonicalAxialPlanes b)[m]?) :
    ∃ entries2,
      addAxialStep b (entries, st) k axis dir = (entries2, st) ∧
      entries2.length = 6 ∧
      (entries2.map (valOf st)).Perm (canonicalAxialPlanes b) ∧
      (∀ m, m < k + 1 →
        (entries2.map (valOf st))[m]? = (canonicalAxialPlanes b)[m]?) := by
  obtain ⟨hklt, hkval⟩ := List.getElem?_eq_some.mp hk
  have hklt6 : k < 6 := by simpa [axisDirs] using hklt
  have hkmem : (axis, dir) ∈ axisDirs := hkval ▸ List.getElem_mem hklt
  have hcanonk : (canonicalAxialPlanes b)[k]? = some (axialPlane b (axis, dir)) := by
    rw [canonicalAxialPlanes, List.getElem?_map, hk]
    rfl
  have htmem : axialPlane b (axis, dir) ∈ entries.map (valOf st) :=
    hperm.mem_iff.mpr (List.mem_map.mpr ⟨(axis, dir), hkmem, rfl⟩)
  have hex : ∃ i, entries.findIdx?
      (fun e => decide ((valOf st e).normal.nth axis = (dir : ℝ))) = some i := by
    cases hfi : entries.findIdx?
        (fun e => decide ((valOf st e).normal.nth axis = (dir : ℝ))) with
    | some i => exact ⟨i, rfl⟩
    | none =>
      obtain ⟨e, hemem, heval⟩ := List.mem_map.mp htmem
      have hall := List.findIdx?_eq_none_iff.mp hfi e hemem
      have hpred : (valOf st e).normal.nth axis = (dir : ℝ) := by
        rw [heval]
        exact (axialPlane_pred b (axis, dir) (axis, dir) hkmem hkmem).mpr rfl
      simp [hpred] at hall
  obtain ⟨i, hfind⟩ := hex
  obtain ⟨hilt, hpi, hmin⟩ := List.findIdx?_eq_some_iff_getElem.mp hfind
  have hvi_pred : (valOf st (entries.get ⟨i, hilt⟩)).normal.nth axis = (dir : ℝ) := by
    simpa using hpi
  have hvimem : valOf st (entries.get ⟨i, hilt⟩) ∈ canonicalAxialPlanes b :=
    hperm.mem_iff.mp (List.mem_map.mpr ⟨entries.get ⟨i, hilt⟩, List.getElem_mem hilt, rfl⟩)
  have hvi : valOf st (entries.get ⟨i, hilt⟩) = axialPlane b (axis, dir) :=
    (canon_pred_char b axis dir hkmem _ hvimem).mp hvi_pred
  have hki : k ≤ i := by
    by_contra hik
    have hik' : i < k := Nat.lt_of_not_le fun hle => hik (Nat.le_of_lt (by omega))
    have hpre_i := hpre i hik'
    have hmapi : (entries.map (valOf st))[i]? = some (valOf st (entries.get ⟨i, hilt⟩)) := by
      rw [List.getElem?_map, List.getElem?_eq_getElem hilt]
      rfl
    have hai : i < axisDirs.length := by
      simp only [axisDirs, List.length_cons, List.length_nil]
      omega
    have hcanoni : (canonicalAxialPlanes b)[i]? =
        some (axialPlane b (axisDirs.get ⟨i, hai⟩)) := by
      rw [canonicalAxialPlanes, List.getElem?_map, List.getElem?_eq_getElem hai]
      rfl
    rw [hmapi, hcanoni] at hpre_i
    have heq : valOf st (entries.get ⟨i, hilt⟩) = axialPlane b (axisDirs.get ⟨i, hai⟩) :=
      Option.some.inj hpre_i
    have hpred_ai : (axialPlane b (axisDirs.get ⟨i, hai⟩)).normal.nth axis = (dir : ℝ) := by
      rw [← heq]
      exact hvi_pred
    have haimem : axisDirs.get ⟨i, hai⟩ ∈ axisDirs := List.getElem_mem hai
    have hax : axisDirs.get ⟨i, hai⟩ = (axis, dir) :=
      (axialPlane_pred b _ (axis, dir) haimem hkmem).mp hpred_ai
    have hgeq : axisDirs.get ⟨i, hai⟩ = axisDirs.get ⟨k, hklt⟩ := by
      rw [hax]
      exact hkval.symm
    have : i = k := (List.Nodup.getElem_inj_iff axisDirs_nodup).mp hgeq
    omega
  by_cases hik : i = k
  · subst hik
    refine ⟨entries, ?_, hlen, hperm, ?_⟩
    · simp only [addAxialStep]
      rw [hfind]
      simp
    · intro m hm
      rcases Nat.lt_or_ge m i with hmk | hmk
      · exact hpre m hmk
      · have hm_eq : m = i := by omega
        subst hm_eq
        rw [hcanonk, List.getElem?_map, List.getElem?_eq_getElem hilt,
          Option.map_some', Option.some.injEq]
        exact hvi
  · have hklen : k < entries.length := by omega
    refine ⟨listSwap entries i k, ?_, ?_, ?_, ?_⟩
    · simp only [addAxialStep]
      rw [hfind]
      simp [hik]
    · rw [listSwap_length, hlen]
    · rw [← listSwap_map (valOf st) entries i k hilt hklen]
      exact (listSwap_perm (entries.map (valOf st)) i k (by simpa using hilt)
        (by simpa using hklen)).trans hperm
    · intro m hm
      have hmlen : m < (entries.map (valOf st)).length := by
        simp only [List.length_map]
        omega
      have hswlen : m < (listSwap (entries.map (valOf st)) i k).length := by
        rw [listSwap_length]
        exact hmlen
      rw [← listSwap_map (valOf st) entries i k hilt hklen,
        List.getElem?_eq_getElem hswlen,
        listSwap_getElem (entries.map (valOf st)) i k (by simpa using hilt)
          (by simpa using hklen) m hswlen]
      rcases Nat.lt_or_ge m k with hmk | hmk
      · have hmne_k : m ≠ k := by omega
        have hmne_i : m ≠ i := by omega
        rw [if_neg hmne_k, if_neg hmne_i, List.get_eq_getElem,
          ← List.getElem?_eq_getElem hmlen]
        exact hpre m hmk
      · have hm_eq : m = k := by omega
        subst hm_eq
        rw [if_pos rfl, hcanonk]
        have hilt2 : i < (entries.map (valOf st)).length := by simpa using hilt
        have hval : (entries.map (valOf st))[i] =
            valOf st (entries.get ⟨i, hilt⟩) := by
          simp
        rw [hval, hvi]

lemma wf_of_no_output (st : MapState)
    (h : ∀ r ∈ st.planes, r.outputplanenum = none) : WfState st := by
  intro i r hr o ho
  have hmem : r ∈ st.planes := by
    rw [List.get?_eq_getElem?] at hr
    exact List.getElem?_mem hr
  rw [h r hmem] at ho
  exact absurd ho (by simp)

/-- C7: For a brush whose face planes already equal the six canonical
axial bounding-box planes (an axis-aligned box), `AddBrushBevels`
returns exactly those six planes — the six axial planes placed first in
canonical order — and adds no edge bevels: the output is exactly six
entries whose exported planes are the canonical axial planes in
canonical order. -/
theorem claim_C7 (st0 : MapState) (b : OldBrush)
    (hwf : WfState st0)
    (hidx : ∀ f ∈ b.faces, f.planenum < st0.planes.length)
    (hbox : (b.faces.map (orientedPlane st0)).Perm (canonicalAxialPlanes b)) :
    (AddBrushBevels st0 b).1.length = 6 ∧
    (AddBrushBevels st0 b).1.map (valOf (AddBrushBevels st0 b).2) =
      canonicalAxialPlanes b := by
  obtain ⟨hwf1, hdext, hple, hpres, hbound, hmap⟩ :=
    loop1_fold b.faces [] st0 hwf hidx (by simp)
  obtain ⟨e0, st1, hinit⟩ : ∃ e s, b.faces.foldl bevelFaceStep ([], st0) = (e, s) :=
    ⟨_, _, rfl⟩
  rw [hinit] at hmap
  simp only [List.map_nil, List.nil_append] at hmap
  have hmap' : e0.map (valOf st1) = b.faces.map (orientedPlane st0) := hmap
  have hperm0 : (e0.map (valOf st1)).Perm (canonicalAxialPlanes b) := by
    rw [hmap']
    exact hbox
  have hcanonlen : (canonicalAxialPlanes b).length = 6 := by
    simp [canonicalAxialPlanes, axisDirs]
  have hlen0 : e0.length = 6 := by
    have h1 := hperm0.length_eq
    rw [List.length_map, hcanonlen] at h1
    exact h1
  obtain ⟨e1, hs1, hl1, hp1, hq1⟩ := axial_step b st1 e0 0 0 (-1) rfl hlen0 hperm0
    (fun m hm => absurd hm (by omega))
  obtain ⟨e2, hs2, hl2, hp2, hq2⟩ := axial_step b st1 e1 1 0 1 rfl hl1 hp1 hq1
  obtain ⟨e3, hs3, hl3, hp3, hq3⟩ := axial_step b st1 e2 2 1 (-1) rfl hl2 hp2 hq2
  obtain ⟨e4, hs4, hl4, hp4, hq4⟩ := axial_step b st1 e3 3 1 1 rfl hl3 hp3 hq3
  obtain ⟨e5, hs5, hl5, hp5, hq5⟩ := axial_step b st1 e4 4 2 (-1) rfl hl4 hp4 hq4
  obtain ⟨e6, hs6, hl6, hp6, hq6⟩ := axial_step b st1 e5 5 2 1 rfl hl5 hp5 hq5
  have hfin : e6.map (valOf st1) = canonicalAxialPlanes b := by
    refine List.ext_getElem? ?_
    intro n
    rcases Nat.lt_or_ge n 6 with hn | hn
    · exact hq6 n hn
    · rw [List.getElem?_eq_none (by rw [List.length_map, hl6]; exact hn),
        List.getElem?_eq_none (by rw [hcanonlen]; exact hn)]
  have henum : axisDirs.enum =
      [(0, ((0 : Nat), (-1 : Int))), (1, (0, 1)), (2, (1, -1)),
       (3, (1, 1)), (4, (2, -1)), (5, (2, 1))] := rfl
  have hfold : axisDirs.enum.foldl (fun acc oad =>
      addAxialStep b acc oad.1 oad.2.1 oad.2.2)
      (b.faces.foldl bevelFaceStep ([], st0)) = (e6, st1) := by
    rw [hinit, henum]
    simp only [List.foldl_cons, List.foldl_nil]
    rw [hs1, hs2, hs3, hs4, hs5, hs6]
  simp only [AddBrushBevels]
  rw [hfold]
  simp only [hl6, if_pos rfl]
  exact ⟨hl6, hfin⟩

/-- An axis-aligned unit box brush: six faces whose planes are exactly
its canonical axial bounding planes. -/
noncomputable def bC7 : OldBrush :=
  { faces := [⟨0, false, 0, []⟩, ⟨1, false, 0, []⟩, ⟨2, false, 0, []⟩,
              ⟨3, false, 0, []⟩, ⟨4, false, 0, []⟩, ⟨5, false, 0, []⟩],
    boundsMins := ⟨0, 0, 0⟩, boundsMaxs := ⟨1, 1, 1⟩ }

/-- A plane state holding exactly the box brush's six axial face
planes, none exported yet. -/
noncomputable def stC7 : MapState :=
  { planes := axisDirs.map (fun ad => ⟨axialPlane bC7 ad, none⟩),
    dplanes := [] }

theorem claim_C7_witness :
    (AddBrushBevels stC7 bC7).1.length = 6 ∧
    (AddBrushBevels stC7 bC7).1.map (valOf (AddBrushBevels stC7 bC7).2) =
      canonicalAxialPlanes bC7 :=
  claim_C7 stC7 bC7
    (wf_of_no_output stC7 (by
      intro r hr
      simp only [stC7] at hr
      obtain ⟨ad, -, had⟩ := List.mem_map.mp hr
      rw [← had]))
    (by intro f hf; fin_cases hf <;> simp [stC7, axisDirs])
    (List.Perm.refl _)
